import Mathlib

/-!
# Verification of the wasm-cel environment/program lifecycle manager

Shallow embedding of the Go lifecycle manager (`DestroyEnv`, `DestroyProgram`,
`unregisterFunctionIfUnused`, `Compile`, `CompileDetailed`, `Typecheck`, `Eval`,
`ExtendEnv`), of the AST-validator option (`traverseExpr`, `processIssues`) and
of the type-descriptor resolver (`parseTypeDef`, `parseTypeName`, `typeToJSON`).

Go maps are modelled as association lists in which `insertTable` replaces any
previous binding and `eraseTable` removes the key; the CEL engine itself
(parser, checker, interpreter) is out of scope for the source repository and is
modelled as an abstract `Engine` record, so all lifecycle theorems are proved
for every engine.
-/

namespace WasmCel

/-- Lookup in a Go-style map modelled as an association list. -/
def lookupTable {α : Type} : List (String × α) → String → Option α
  | [], _ => none
  | kv :: rest, k => if kv.1 = k then some kv.2 else lookupTable rest k

/-- Deletion from a Go-style map: removes every binding of the key. -/
def eraseTable {α : Type} : List (String × α) → String → List (String × α)
  | [], _ => []
  | kv :: rest, k => if kv.1 = k then eraseTable rest k else kv :: eraseTable rest k

/-- Insertion into a Go-style map: replaces any previous binding of the key. -/
def insertTable {α : Type} (t : List (String × α)) (k : String) (v : α) :
    List (String × α) :=
  (k, v) :: eraseTable t k

def mem_of_lookupTable_eq_some {α : Type} {t : List (String × α)} {k : String}
    {v : α} (h : lookupTable t k = some v) : (k, v) ∈ t := by
  induction t with
  | nil => simp [lookupTable] at h
  | cons kv rest ih =>
    by_cases hk : kv.1 = k
    · simp only [lookupTable, if_pos hk] at h
      have hkv : (k, v) = kv := by
        obtain ⟨k0, v0⟩ := kv
        simp only [Option.some_inj] at h
        simp only at hk h
        simp [hk, h]
      rw [hkv]
      exact List.mem_cons_self _ _
    · simp only [lookupTable, if_neg hk] at h
      exact List.mem_cons_of_mem _ (ih h)

/-! ## Data model of the lifecycle manager (from `main_test.go`, lifecycle part) -/

/-- Opaque representation of an engine-side `*cel.Env`. -/
abbrev EngineEnv := Nat

/-- Opaque representation of an engine-side checked AST. -/
abbrev EngineAst := Nat

/-- Opaque representation of an engine-side `cel.Program`. -/
abbrev EngineProg := Nat

/-- Opaque representation of an engine-side `*cel.Type`. -/
abbrev EngineTy := Nat

/-- Opaque representation of an engine-side `cel.EnvOption`. -/
abbrev EnvOpt := Nat

/-- Opaque representation of a CEL runtime value crossing the Value Bridge. -/
abbrev Value := Nat

/-- `EnvState` holds a CEL environment (Go: `env`, `implIDs`, `destroyed`). -/
structure EnvState where
  env : EngineEnv
  implIDs : List String
  destroyed : Bool
deriving Repr, DecidableEq

/-- `ProgramState` holds a compiled CEL program and its owning environment id. -/
structure ProgramState where
  prg : EngineProg
  envID : String
deriving Repr, DecidableEq

/-- `FunctionRefCount` tracks reference counts for function implementations. -/
structure FunctionRefCount where
  refCount : Int
  envID : String
deriving Repr, DecidableEq

/-- An issue emitted by a custom validator (Go `common.ValidatorIssue`);
the location models the optional `{line, column}` map. -/
structure ValidatorIssue where
  severity : String
  message : String
  location : Option (Int × Int)
deriving Repr, DecidableEq

/-- The global registries of the lifecycle manager (Go package-level `envs`,
`programs`, `functionRefs`, `compilationRegistry` and the id counters),
together with the JS-side callback registry (`registered`): the list of
implementation ids currently registered with the host, which
`UnregisterFunction` removes entries from. -/
structure CelState where
  envs : List (String × EnvState)
  programs : List (String × ProgramState)
  functionRefs : List (String × FunctionRefCount)
  compilationRegistry : List (String × List ValidatorIssue)
  registered : List String
  envIDCounter : Nat
  programIDCounter : Nat
  compilationIDCounter : Nat
deriving Repr, DecidableEq

/-- Result of an API call returning `{success}` or `{error}`. -/
inductive ApiResult where
  | ok : ApiResult
  | err (msg : String) : ApiResult
deriving Repr, DecidableEq

/-- Result of `Compile`: `{programID}` or `{error}`. -/
inductive CompileResult where
  | ok (programID : String) : CompileResult
  | err (msg : String) : CompileResult
deriving Repr, DecidableEq

/-- Result of `Eval`: `{result}` or `{error}`. -/
inductive EvalResult where
  | ok (v : Value) : EvalResult
  | err (msg : String) : EvalResult
deriving Repr, DecidableEq

/-! ## Type Descriptor Resolver (from `parseTypeDef` / `parseTypeName` / `typeToJSON`) -/

/-- The JSON-shaped descriptor handed to `parseTypeDef` (a Go `interface{}`
that is either a string, a `map[string]interface{}`, or something else). -/
inductive TypeDescJson where
  | str (s : String) : TypeDescJson
  | obj (fields : List (String × TypeDescJson)) : TypeDescJson
  | other : TypeDescJson

/-- Lookup of a field in a descriptor object (Go `typeDefMap[key]`). -/
def fieldLookup (fields : List (String × TypeDescJson)) (k : String) :
    Option TypeDescJson :=
  lookupTable fields k

/-- The fragment of `exprpb.Type` produced by `parseTypeDef` and consumed by
`typeToJSON`: primitives, well-known types, null, dyn, lists and maps. -/
inductive ExprType where
  | bool | int | uint | double | string | bytes
  | timestamp | duration | null | dyn
  | list (elem : ExprType)
  | map (key value : ExprType)
deriving Repr, DecidableEq

/-- `parseTypeName` parses a type name string into a CEL type. -/
def parseTypeName (typeName : String) : ExprType :=
  match typeName with
  | "bool" => .bool
  | "int" => .int
  | "uint" => .uint
  | "double" => .double
  | "string" => .string
  | "bytes" => .bytes
  | "timestamp" => .timestamp
  | "duration" => .duration
  | "null" => .null
  | "dyn" => .dyn
  | "any" => .dyn
  | _ => .dyn

def sizeOf_fieldLookup_lt {fields : List (String × TypeDescJson)} {k : String}
    {v : TypeDescJson} (h : fieldLookup fields k = some v) :
    sizeOf v < sizeOf fields := by
  have hmem : (k, v) ∈ fields := mem_of_lookupTable_eq_some h
  have h1 : sizeOf (k, v) < sizeOf fields := List.sizeOf_lt_of_mem hmem
  have h2 : sizeOf v < sizeOf (k, v) := by
    simp only [Prod.mk.sizeOf_spec]
    omega
  exact lt_trans h2 h1

def sizeOf_fieldLookup_opt_lt (fields : List (String × TypeDescJson))
    (k : String) :
    sizeOf (fieldLookup fields k) < sizeOf (TypeDescJson.obj fields) := by
  have hfpos : 0 < sizeOf fields := by
    cases fields with
    | nil => simp
    | cons a l => simp only [List.cons.sizeOf_spec]; omega
  cases h : fieldLookup fields k with
  | none =>
    simp only [TypeDescJson.obj.sizeOf_spec, Option.none.sizeOf_spec]
    omega
  | some v =>
    have := sizeOf_fieldLookup_lt h
    simp only [TypeDescJson.obj.sizeOf_spec, Option.some.sizeOf_spec]
    omega

mutual

/-- `parseTypeDef` parses a type definition from JSON into a CEL type: a string
is a simple type name; an object is dispatched on its `kind` field (`list` with
an `elementType` that may itself be an object or a string; `map` with `keyType`
tried first as a string and then as an object, and `valueType` tried first as
an object and then as a string), falling back to a `type` or `name` string
field and ultimately to the dynamic type. The inner type switches of the Go
function are hoisted into the named helpers below. -/
def parseTypeDef : TypeDescJson → ExprType
  | .str typeName => parseTypeName typeName
  | .other => .dyn
  | .obj fields =>
    match fieldLookup fields "kind" with
    | some (.str "list") => parseElementType (fieldLookup fields "elementType")
    | some (.str "map") =>
        .map (parseKeyType (fieldLookup fields "keyType"))
          (parseValueType (fieldLookup fields "valueType"))
    | _ =>
      match fieldLookup fields "type" with
      | some (.str typeName) => parseTypeName typeName
      | _ =>
        match fieldLookup fields "name" with
        | some (.str typeName) => parseTypeName typeName
        | _ => .dyn
termination_by t => sizeOf t
decreasing_by
  all_goals simp_wf
  · have h := sizeOf_fieldLookup_opt_lt fields "elementType"
    simp only [TypeDescJson.obj.sizeOf_spec] at h
    omega
  · have h := sizeOf_fieldLookup_opt_lt fields "keyType"
    simp only [TypeDescJson.obj.sizeOf_spec] at h
    omega
  · have h := sizeOf_fieldLookup_opt_lt fields "valueType"
    simp only [TypeDescJson.obj.sizeOf_spec] at h
    omega

/-- The `elementType` dispatch of `parseTypeDef`'s list case: an object or
string recurses, anything else falls back to a dynamic element. -/
def parseElementType : Option TypeDescJson → ExprType
  | some (.obj elemFields) => .list (parseTypeDef (.obj elemFields))
  | some (.str elemTypeStr) => .list (parseTypeDef (.str elemTypeStr))
  | _ => .list .dyn
termination_by o => sizeOf o
decreasing_by
  all_goals simp_wf

/-- The `keyType` dispatch of `parseTypeDef`'s map case: a string is parsed as
a type name, an object recurses, anything else defaults to `string`. -/
def parseKeyType : Option TypeDescJson → ExprType
  | some (.str kt) => parseTypeName kt
  | some (.obj ktFields) => parseTypeDef (.obj ktFields)
  | _ => .string
termination_by o => sizeOf o
decreasing_by
  all_goals simp_wf

/-- The `valueType` dispatch of `parseTypeDef`'s map case: an object or string
recurses, anything else defaults to `dyn`. -/
def parseValueType : Option TypeDescJson → ExprType
  | some (.obj vtFields) => parseTypeDef (.obj vtFields)
  | some (.str vt) => parseTypeDef (.str vt)
  | _ => .dyn
termination_by o => sizeOf o
decreasing_by
  all_goals simp_wf

end

/-- `typeToJSON` converts a CEL `exprpb.Type` to its JSON-serializable
descriptor; the inverse of `parseTypeDef`. -/
def typeToJSON : ExprType → TypeDescJson
  | .bool => .str "bool"
  | .int => .str "int"
  | .uint => .str "uint"
  | .double => .str "double"
  | .string => .str "string"
  | .bytes => .str "bytes"
  | .timestamp => .str "timestamp"
  | .duration => .str "duration"
  | .null => .str "null"
  | .dyn => .str "dyn"
  | .list elem => .obj [("kind", .str "list"), ("elementType", typeToJSON elem)]
  | .map key value =>
      .obj [("kind", .str "map"), ("keyType", typeToJSON key),
            ("valueType", typeToJSON value)]

/-! ## The abstract CEL engine

The expression parser/type-checker/interpreter is an external collaborator
(`github.com/google/cel-go`), out of scope for this repository; the spec treats
it as a correct black box. It is modelled as a record of abstract operations,
and every lifecycle theorem below is proved for an arbitrary `Engine`. -/

/-- An engine-native compile error: message plus the `line`/`column` of its
`common.Location`. -/
structure CelError where
  message : String
  line : Int
  column : Int
deriving Repr, DecidableEq

/-- Abstract CEL engine operations used by the lifecycle manager.

* `compile` models `env.Compile` (parse + typecheck), returning a checked AST
  or the message of `issues.Err()`.
* `isChecked` models `ast.IsChecked()`.
* `mkProgram` models `env.Program(ast)`.
* `evalProg` models `prg.Eval(vars)`; the `String → Bool` argument is the
  JS-side callback registry, which the function bindings captured in the
  program consult through `CallJSFunction`.
* `outputType`/`typeToExprType` model `ast.OutputType()` and
  `cel.TypeToExprType`.
* `parseCheck` models `env.ParseSource` followed by `env.Check` for a source
  whose description carries the given compilation id: it returns the checked
  AST, the engine-native errors (`issues.Errors()`, non-empty exactly when
  `issues.Err() != nil`), and the validator issues that the configured AST
  validators appended to the compilation context registered under that id.
* `createOpts` models `wasmenv.CreateOptionsFromJSONWithEnvID` (a pure
  builder pipeline over the options JSON and environment id).
* `extend` models `env.Extend`. -/
structure Engine where
  compile : EngineEnv → String → Except String EngineAst
  isChecked : EngineAst → Bool
  mkProgram : EngineEnv → EngineAst → Except String EngineProg
  evalProg : EngineProg → List (String × Value) → (String → Bool) → Except String Value
  outputType : EngineAst → Option EngineTy
  typeToExprType : EngineTy → Except String ExprType
  parseCheck : EngineEnv → String → String → EngineAst × List CelError × List ValidatorIssue
  createOpts : String → String → Except String (List EnvOpt)
  extend : EngineEnv → List EnvOpt → Except String EngineEnv

/-! ## Lifecycle operations (translated from the source) -/

/-- `unregisterFunctionIfUnused` unregisters a function if its reference count
reaches 0: when the tracked `refCount ≤ 0` the JS-side callback is
unregistered and the bookkeeping entry dropped. Note there is no check of the
owning environment's `destroyed` flag. -/
def unregisterFunctionIfUnused (s : CelState) (implID : String) : CelState :=
  match lookupTable s.functionRefs implID with
  | none => s
  | some r =>
    if r.refCount ≤ 0 then
      { s with registered := s.registered.filter (fun x => x != implID),
               functionRefs := eraseTable s.functionRefs implID }
    else s

/-- `DestroyEnv`'s immediate-cleanup test: true when no listed implementation
id has a tracked `refCount > 0` (a missing entry counts as cleanable). -/
def canCleanupCheck (refs : List (String × FunctionRefCount)) (L : List String) :
    Bool :=
  L.all fun implID =>
    match lookupTable refs implID with
    | some r => decide (r.refCount ≤ 0)
    | none => true

/-- `DestroyEnv` marks an environment destroyed; if every function of the
environment currently has `refCount ≤ 0` (or no entry), cleanup happens
immediately: each implementation id is passed to `unregisterFunctionIfUnused`
and the environment entry is deleted. -/
def DestroyEnv (s : CelState) (envID : String) : CelState × ApiResult :=
  match lookupTable s.envs envID with
  | none => (s, .err ("environment not found: " ++ envID))
  | some envState =>
    let s1 := { s with envs := insertTable s.envs envID { envState with destroyed := true } }
    if canCleanupCheck s1.functionRefs envState.implIDs then
      let s2 := envState.implIDs.foldl unregisterFunctionIfUnused s1
      ({ s2 with envs := eraseTable s2.envs envID }, .ok)
    else (s1, .ok)

/-- One step of `DestroyProgram`'s loop over the owning environment's
implementation ids: decrement the tracked `refCount` (if an entry exists) and
then `unregisterFunctionIfUnused`. -/
def decStep (s : CelState) (implID : String) : CelState :=
  match lookupTable s.functionRefs implID with
  | none => s
  | some r =>
    let r1 : FunctionRefCount := { r with refCount := r.refCount - 1 }
    let s1 := { s with functionRefs := insertTable s.functionRefs implID r1 }
    unregisterFunctionIfUnused s1 implID

/-- `DestroyProgram` removes the program entry first, then decrements the
reference count of every function of the originating environment (unregistering
those that reach 0), and finally removes the environment entry when it is
flagged destroyed and no remaining program references it. -/
def DestroyProgram (s : CelState) (programID : String) : CelState × ApiResult :=
  match lookupTable s.programs programID with
  | none => (s, .err ("program not found: " ++ programID))
  | some programState =>
    let envID := programState.envID
    let s1 := { s with programs := eraseTable s.programs programID }
    match lookupTable s1.envs envID with
    | none => (s1, .ok)
    | some envState =>
      let s2 := envState.implIDs.foldl decStep s1
      let hasRemainingPrograms := s2.programs.any fun kv => kv.2.envID == envID
      if envState.destroyed ∧ ¬hasRemainingPrograms then
        ({ s2 with envs := eraseTable s2.envs envID }, .ok)
      else (s2, .ok)

/-- `Compile` checks the environment exists and is not destroyed, runs the
engine compile + program build, stores the new program under a fresh id and
increments the reference count of every function of the environment. -/
def Compile (eng : Engine) (s : CelState) (envID exprStr : String) :
    CelState × CompileResult :=
  match lookupTable s.envs envID with
  | none => (s, .err ("environment not found: " ++ envID))
  | some envState =>
    if envState.destroyed then
      (s, .err ("environment has been destroyed: " ++ envID))
    else
      match eng.compile envState.env exprStr with
      | .error e => (s, .err ("compilation error: " ++ e))
      | .ok ast =>
        if ¬ eng.isChecked ast then
          (s, .err "expression compilation failed: not checked")
        else
          match eng.mkProgram envState.env ast with
          | .error e => (s, .err ("failed to create program: " ++ e))
          | .ok prg =>
            let ctr := s.programIDCounter + 1
            let programID := "prg_" ++ toString ctr
            let s1 := { s with programIDCounter := ctr,
                               programs := insertTable s.programs programID ⟨prg, envID⟩ }
            let newRefs := envState.implIDs.foldl (fun t implID =>
                 match lookupTable t implID with
                 | some r => insertTable t implID ⟨r.refCount + 1, r.envID⟩
                 | none => t) s1.functionRefs
            let s2 := { s1 with functionRefs := newRefs }
            (s2, .ok programID)

/-- `Eval` looks the program up and evaluates it; the compiled program's
function bindings consult the JS-side callback registry. -/
def Eval (eng : Engine) (s : CelState) (programID : String)
    (vars : List (String × Value)) : CelState × EvalResult :=
  match lookupTable s.programs programID with
  | none => (s, .err ("program not found: " ++ programID))
  | some programState =>
    match eng.evalProg programState.prg vars (fun i => s.registered.contains i) with
    | .error e => (s, .err ("evaluation error: " ++ e))
    | .ok v => (s, .ok v)

/-- Result of `Typecheck`: `{type}` (already serialized by `typeToJSON`) or
`{error}`. -/
inductive TypecheckResult where
  | ok (ty : TypeDescJson) : TypecheckResult
  | err (msg : String) : TypecheckResult

/-- `Typecheck` typechecks an expression in an environment and converts the
resulting type to its JSON descriptor; it touches none of the tables. -/
def Typecheck (eng : Engine) (s : CelState) (envID exprStr : String) :
    CelState × TypecheckResult :=
  match lookupTable s.envs envID with
  | none => (s, .err ("environment not found: " ++ envID))
  | some envState =>
    if envState.destroyed then
      (s, .err ("environment has been destroyed: " ++ envID))
    else
      match eng.compile envState.env exprStr with
      | .error e => (s, .err ("typecheck error: " ++ e))
      | .ok ast =>
        if ¬ eng.isChecked ast then
          (s, .err "expression typecheck failed: not checked")
        else
          match eng.outputType ast with
          | none => (s, .err "expression has no type information")
          | some exprType =>
            match eng.typeToExprType exprType with
            | .error e => (s, .err ("failed to convert type: " ++ e))
            | .ok exprTypeExpr => (s, .ok (typeToJSON exprTypeExpr))

/-- An issue in the JavaScript-compatible format assembled by
`CompileDetailed` (severity, message, optional `{line, column}` location). -/
structure JsIssueOut where
  severity : String
  message : String
  location : Option (Int × Int)
deriving Repr, DecidableEq

/-- Result of `CompileDetailed`: a program id or an error, in both cases with
the ordered issue list. -/
inductive DetailedResult where
  | ok (programID : String) (issues : List JsIssueOut) : DetailedResult
  | err (msg : String) (issues : List JsIssueOut) : DetailedResult
deriving Repr, DecidableEq

/-- `CompileDetailed` compiles with a per-call compilation context: it
registers a fresh issue collector under a fresh compilation id, threads that id
through the source description handed to the engine's parse + check (the
"filename side-channel", along which the configured AST validators append
their issues to the registered collector), assembles the engine-native errors
followed by the collected validator issues, and unregisters the collector on
every return path (the Go `defer`). On success it stores the program and
increments the reference counts exactly as `Compile` does.

The Go compilation id is `comp_<counter>_<pointer>`; the pointer component
(present only to strengthen uniqueness) is not representable and is dropped. -/
def CompileDetailed (eng : Engine) (s : CelState) (envID exprStr : String) :
    CelState × DetailedResult :=
  match lookupTable s.envs envID with
  | none => (s, .err ("environment not found: " ++ envID) [])
  | some envState =>
    if envState.destroyed then
      (s, .err ("environment has been destroyed: " ++ envID) [])
    else
      let ctr := s.compilationIDCounter + 1
      let compilationID := "comp_" ++ toString ctr
      let s1 := { s with compilationIDCounter := ctr,
                         compilationRegistry :=
                           insertTable s.compilationRegistry compilationID [] }
      let pc := eng.parseCheck envState.env exprStr compilationID
      let ast := pc.1
      let natives := pc.2.1
      let validatorIssues := pc.2.2
      let collectorNow :=
        (lookupTable s1.compilationRegistry compilationID).getD [] ++ validatorIssues
      let s2 := { s1 with compilationRegistry :=
                    insertTable s1.compilationRegistry compilationID collectorNow }
      let jsIssues : List JsIssueOut :=
        natives.map (fun e => ⟨"error", e.message, some (e.line, e.column)⟩)
          ++ collectorNow.map (fun v => ⟨v.severity, v.message, v.location⟩)
      let cleanup := fun (t : CelState) =>
        { t with compilationRegistry := eraseTable t.compilationRegistry compilationID }
      if natives ≠ [] then
        (cleanup s2,
         .err ("compilation error: " ++ String.intercalate "; " (natives.map (·.message)))
           jsIssues)
      else if ¬ eng.isChecked ast then
        (cleanup s2, .err "expression compilation failed: not checked" jsIssues)
      else
        match eng.mkProgram envState.env ast with
        | .error e => (cleanup s2, .err ("failed to create program: " ++ e) jsIssues)
        | .ok prg =>
          let pctr := s2.programIDCounter + 1
          let programID := "prg_" ++ toString pctr
          let s3 := { s2 with programIDCounter := pctr,
                              programs := insertTable s2.programs programID ⟨prg, envID⟩ }
          let newRefs := envState.implIDs.foldl (fun t implID =>
               match lookupTable t implID with
               | some r => insertTable t implID ⟨r.refCount + 1, r.envID⟩
               | none => t) s3.functionRefs
          let s4 := { s3 with functionRefs := newRefs }
          (cleanup s4, .ok programID jsIssues)

/-- `ExtendEnv` resolves the option configuration and replaces the stored
engine environment with the extended one; every failure path returns before
any state is written. -/
def ExtendEnv (eng : Engine) (s : CelState) (envID optionsJSON : String) :
    CelState × ApiResult :=
  match lookupTable s.envs envID with
  | none => (s, .err ("environment not found: " ++ envID))
  | some envState =>
    if envState.destroyed then
      (s, .err ("environment has been destroyed: " ++ envID))
    else
      match eng.createOpts optionsJSON envID with
      | .error e => (s, .err ("failed to create environment options: " ++ e))
      | .ok envOptions =>
        match eng.extend envState.env envOptions with
        | .error e => (s, .err ("failed to extend environment: " ++ e))
        | .ok newEnv =>
          ({ s with envs := insertTable s.envs envID { envState with env := newEnv } }, .ok)

/-! ## AST validators (from `internal/options/astvalidators_fromjson.go`) -/

/-- A validation issue returned by a JavaScript validator
(`JSValidationIssue`). -/
structure JsIssue where
  severity : String
  message : String
  location : Option (Int × Int)
deriving Repr, DecidableEq

/-- Outcome of one `CallJSFunction` invocation of a validator callback: the
call failed, or returned a result map with an `issues` array, or returned
anything without issues to add. -/
inductive CallOutcome where
  | failure (err : String) : CallOutcome
  | issues (issues : List JsIssue) : CallOutcome
  | noIssues : CallOutcome

/-- The issues that visiting one node appends to the validation context: for
each validator function id in order, a failed call contributes one
error-severity issue and a successful call contributes the issues it returned,
every one tagged with the node's id. -/
def nodeIssues (vids : List String) (oracle : String → Nat → CallOutcome)
    (nid : Nat) : List (JsIssue × Nat) :=
  vids.flatMap fun functionId =>
    match oracle functionId nid with
    | .failure e =>
        [(⟨"error", "Validator function " ++ functionId ++ " failed: " ++ e, none⟩, nid)]
    | .issues l => l.map fun issue => (issue, nid)
    | .noIssues => []

/-- The `ast.Expr` fragment traversed by the validator: idents and literals
are leaves; calls have an optional target and arguments; selects an operand;
lists elements; maps key/value entries; structs field values; comprehensions
their five sub-expressions. -/
inductive CelExpr where
  | ident (exprId : Nat) (name : String) : CelExpr
  | lit (exprId : Nat) : CelExpr
  | call (exprId : Nat) (target : Option CelExpr) (functionName : String)
      (args : List CelExpr) : CelExpr
  | sel (exprId : Nat) (operand : CelExpr) (fieldName : String) : CelExpr
  | listE (exprId : Nat) (elements : List CelExpr) : CelExpr
  | mapE (exprId : Nat) (entries : List (CelExpr × CelExpr)) : CelExpr
  | structE (exprId : Nat) (typeName : String) (fieldValues : List CelExpr) : CelExpr
  | compre (exprId : Nat) (iterRange accuInit loopCondition loopStep result : CelExpr) :
      CelExpr

/-- Concatenation of (invocation events, collected issues) pairs, in order. -/
def pcat {α β : Type} (a b : List α × List β) : List α × List β :=
  (a.1 ++ b.1, a.2 ++ b.2)

mutual

/-- `traverseExpr` visits a node (invoking every validator function on it, in
registration order, collecting the issues they emit) and then recursively
traverses its children: call target then arguments; select operand; list
elements in order; map entries key then value in order; struct field values in
order; comprehension iteration range, accumulator init, loop condition, loop
step, result. The first component records the `CallJSFunction` invocations as
(validator function id, node id) events in order; the second the collected
issues. -/
def traverseExpr (vids : List String) (oracle : String → Nat → CallOutcome) :
    CelExpr → List (String × Nat) × List (JsIssue × Nat)
  | .ident i _ => (vids.map fun fid => (fid, i), nodeIssues vids oracle i)
  | .lit i => (vids.map fun fid => (fid, i), nodeIssues vids oracle i)
  | .call i target _ args =>
      pcat (vids.map fun fid => (fid, i), nodeIssues vids oracle i)
        (pcat (traverseTarget vids oracle target) (traverseList vids oracle args))
  | .sel i operand _ =>
      pcat (vids.map fun fid => (fid, i), nodeIssues vids oracle i)
        (traverseExpr vids oracle operand)
  | .listE i elements =>
      pcat (vids.map fun fid => (fid, i), nodeIssues vids oracle i)
        (traverseList vids oracle elements)
  | .mapE i entries =>
      pcat (vids.map fun fid => (fid, i), nodeIssues vids oracle i)
        (traverseEntries vids oracle entries)
  | .structE i _ fieldValues =>
      pcat (vids.map fun fid => (fid, i), nodeIssues vids oracle i)
        (traverseList vids oracle fieldValues)
  | .compre i iterRange accuInit loopCondition loopStep result =>
      pcat (vids.map fun fid => (fid, i), nodeIssues vids oracle i)
        (pcat (traverseExpr vids oracle iterRange)
          (pcat (traverseExpr vids oracle accuInit)
            (pcat (traverseExpr vids oracle loopCondition)
              (pcat (traverseExpr vids oracle loopStep)
                (traverseExpr vids oracle result)))))

/-- Traversal of a call's optional target (skipped when nil). -/
def traverseTarget (vids : List String) (oracle : String → Nat → CallOutcome) :
    Option CelExpr → List (String × Nat) × List (JsIssue × Nat)
  | none => ([], [])
  | some e => traverseExpr vids oracle e

/-- Left-to-right traversal of a list of child expressions. -/
def traverseList (vids : List String) (oracle : String → Nat → CallOutcome) :
    List CelExpr → List (String × Nat) × List (JsIssue × Nat)
  | [] => ([], [])
  | e :: rest => pcat (traverseExpr vids oracle e) (traverseList vids oracle rest)

/-- Traversal of map entries, key then value, in entry order. -/
def traverseEntries (vids : List String) (oracle : String → Nat → CallOutcome) :
    List (CelExpr × CelExpr) → List (String × Nat) × List (JsIssue × Nat)
  | [] => ([], [])
  | (k, v) :: rest =>
      pcat (pcat (traverseExpr vids oracle k) (traverseExpr vids oracle v))
        (traverseEntries vids oracle rest)

end

mutual

/-- The node-id sequence described by the specification: pre-order (each node
before its children), children left-to-right per node kind — call target then
arguments; select operand; list elements in order; map entries key then value
in entry order; struct field values in declaration order; comprehension
iteration range, accumulator init, loop condition, loop step, result. Written
from the spec's words, to be compared with the traversal translated from the
source. -/
def specPreorder : CelExpr → List Nat
  | .ident i _ => [i]
  | .lit i => [i]
  | .call i target _ args =>
      i :: (specPreorderTarget target ++ specPreorderList args)
  | .sel i operand _ => i :: specPreorder operand
  | .listE i elements => i :: specPreorderList elements
  | .mapE i entries => i :: specPreorderEntries entries
  | .structE i _ fieldValues => i :: specPreorderList fieldValues
  | .compre i iterRange accuInit loopCondition loopStep result =>
      i :: (specPreorder iterRange ++ specPreorder accuInit ++
        specPreorder loopCondition ++ specPreorder loopStep ++ specPreorder result)

/-- Pre-order ids of an optional call target. -/
def specPreorderTarget : Option CelExpr → List Nat
  | none => []
  | some e => specPreorder e

/-- Pre-order ids of a list of children, left to right. -/
def specPreorderList : List CelExpr → List Nat
  | [] => []
  | e :: rest => specPreorder e ++ specPreorderList rest

/-- Pre-order ids of map entries, key then value. -/
def specPreorderEntries : List (CelExpr × CelExpr) → List Nat
  | [] => []
  | (k, v) :: rest => specPreorder k ++ specPreorder v ++ specPreorderEntries rest

end

mutual

/-- How many nodes of the tree carry the given id (the multiplicity of a node
id among all AST nodes). -/
def idCount : CelExpr → Nat → Nat
  | .ident i _, n => if i = n then 1 else 0
  | .lit i, n => if i = n then 1 else 0
  | .call i target _ args, n =>
      (if i = n then 1 else 0) + idCountTarget target n + idCountList args n
  | .sel i operand _, n => (if i = n then 1 else 0) + idCount operand n
  | .listE i elements, n => (if i = n then 1 else 0) + idCountList elements n
  | .mapE i entries, n => (if i = n then 1 else 0) + idCountEntries entries n
  | .structE i _ fieldValues, n => (if i = n then 1 else 0) + idCountList fieldValues n
  | .compre i iterRange accuInit loopCondition loopStep result, n =>
      (if i = n then 1 else 0) + idCount iterRange n + idCount accuInit n +
        idCount loopCondition n + idCount loopStep n + idCount result n

/-- Id multiplicity in an optional call target. -/
def idCountTarget : Option CelExpr → Nat → Nat
  | none, _ => 0
  | some e, n => idCount e n

/-- Id multiplicity in a list of children. -/
def idCountList : List CelExpr → Nat → Nat
  | [], _ => 0
  | e :: rest, n => idCount e n + idCountList rest n

/-- Id multiplicity in a list of map entries. -/
def idCountEntries : List (CelExpr × CelExpr) → Nat → Nat
  | [], _ => 0
  | (k, v) :: rest, n => idCount k n + idCount v n + idCountEntries rest n

end

/-- ASCII lower-casing of one character. -/
def charToLower (c : Char) : Char :=
  if 'A' ≤ c ∧ c ≤ 'Z' then Char.ofNat (c.toNat + 32) else c

/-- Lower-casing of a string (Go `strings.ToLower`, modelled for the ASCII
severity strings `error`/`warning`/`info` the validator protocol compares). -/
def strToLower (s : String) : String :=
  ⟨s.data.map charToLower⟩

/-- The message under which an issue is reported to the engine's issue list:
its own message with the issue's location folded in when present. -/
def escalatedMessage (issue : JsIssue) : String :=
  match issue.location with
  | some (line, col) =>
      issue.message ++ " (line " ++ toString line ++ ", col " ++ toString col ++ ")"
  | none => issue.message

/-- `processIssues` converts the issues collected by the traversal: a warning
is skipped entirely when `includeWarnings` is false; a non-error issue is added
to the compilation collector with its original severity; an issue is reported
to the engine's issue list (escalated, with the location folded into the
message) when it has error severity or `failOnWarning` is set. Returns the
collector additions and the reported engine errors as (node id, message)
pairs, both in input order. -/
def processIssues (failOnWarning includeWarnings : Bool) :
    List (JsIssue × Nat) → List ValidatorIssue × List (Nat × String)
  | [] => ([], [])
  | (issue, nodeID) :: rest =>
    let acc := processIssues failOnWarning includeWarnings rest
    if ¬includeWarnings ∧ strToLower issue.severity = "warning" then acc
    else
      let collected :=
        if strToLower issue.severity ≠ "error" then
          (⟨issue.severity, issue.message, issue.location⟩ : ValidatorIssue) :: acc.1
        else acc.1
      let reported :=
        if strToLower issue.severity = "error" ∨ failOnWarning then
          (nodeID, escalatedMessage issue) :: acc.2
        else acc.2
      (collected, reported)

/-! ## The teardown invariant

`DestroyInv env0 L P e s envPending R` describes the state of the tables while
an environment `e` owning function ids `L` and originally `P` compiled
programs is being torn down: `envPending` records whether its `DestroyEnv`
call is still outstanding, `R ⊆ P` the program ids whose `DestroyProgram`
calls are still outstanding (each function's tracked `refCount` is then
exactly `R.length`). -/
structure DestroyInv (env0 : EngineEnv) (L P : List String) (e : String)
    (s : CelState) (envPending : Bool) (R : List String) : Prop where
  nodupL : L.Nodup
  nodupR : R.Nodup
  subRP : ∀ p ∈ R, p ∈ P
  progIn : ∀ p ∈ R, ∃ prg, lookupTable s.programs p = some ⟨prg, e⟩
  progPairs : ∀ kv ∈ s.programs, kv.2.envID = e → kv.1 ∈ R
  progGone : ∀ p ∈ P, p ∉ R → lookupTable s.programs p = none
  envCase : if envPending then lookupTable s.envs e = some ⟨env0, L, false⟩
    else if R.isEmpty ∨ L.isEmpty then lookupTable s.envs e = none
    else lookupTable s.envs e = some ⟨env0, L, true⟩
  refCase : ∀ i ∈ L,
    if R.isEmpty then
      if envPending then
        (lookupTable s.functionRefs i = none ∧ i ∉ s.registered) ∨
        (lookupTable s.functionRefs i = some ⟨0, e⟩ ∧ i ∈ s.registered)
      else lookupTable s.functionRefs i = none ∧ i ∉ s.registered
    else lookupTable s.functionRefs i = some ⟨(R.length : Int), e⟩ ∧ i ∈ s.registered

/-! ## Interleavings of destroy calls -/

/-- One destroy call of an interleaving: the environment's `DestroyEnv`, or
`DestroyProgram` of one program. -/
inductive DestroyOp where
  | env : DestroyOp
  | prog (programID : String) : DestroyOp
deriving Repr, DecidableEq

/-- Execute one destroy call against environment `e`. -/
def execDestroyOp (e : String) (s : CelState) : DestroyOp → CelState
  | .env => (DestroyEnv s e).1
  | .prog pid => (DestroyProgram s pid).1

/-- Execute a list of destroy calls in order. -/
def execDestroyOps (e : String) (s : CelState) : List DestroyOp → CelState
  | [] => s
  | op :: rest => execDestroyOps e (execDestroyOp e s op) rest

/-- Whether the environment's destroy call is still in the list. -/
def hasEnvOp : List DestroyOp → Bool
  | [] => false
  | .env :: _ => true
  | .prog _ :: rest => hasEnvOp rest

/-- The program ids whose destroy call is still in the list. -/
def pendingProgs (l : List DestroyOp) : List String :=
  l.filterMap fun op => match op with | .env => none | .prog pid => some pid

/-- The state of the tables right after an environment with function ids `L`
and compiled programs `P` has been fully set up (what `CreateEnvWithOptions`
followed by `P.length` successful `Compile` calls produces, for globally
unique implementation ids): the environment entry is live, every program of
`P` is stored with `e` as its owner and no other program references `e`, and
every function entry counts the `P.length` live programs and is registered on
the JS side. -/
structure CleanSetup (s : CelState) (e : String) (env0 : EngineEnv)
    (L P : List String) : Prop where
  nodupL : L.Nodup
  nodupP : P.Nodup
  envEntry : lookupTable s.envs e = some ⟨env0, L, false⟩
  progEntries : ∀ p ∈ P, ∃ prg, lookupTable s.programs p = some ⟨prg, e⟩
  progPairs : ∀ kv ∈ s.programs, kv.2.envID = e → kv.1 ∈ P
  refEntries : ∀ i ∈ L, lookupTable s.functionRefs i = some ⟨(P.length : Int), e⟩
  regEntries : ∀ i ∈ L, i ∈ s.registered

/-- Concrete setup used by witnesses: one environment `env_1` owning function
`fn_1` (registered, refCount 1) and one compiled program `prg_1`. -/
def sOneOne : CelState :=
  { envs := [("env_1", ⟨0, ["fn_1"], false⟩)],
    programs := [("prg_1", ⟨0, "env_1"⟩)],
    functionRefs := [("fn_1", ⟨1, "env_1"⟩)],
    compilationRegistry := [],
    registered := ["fn_1"],
    envIDCounter := 1,
    programIDCounter := 1,
    compilationIDCounter := 0 }

/-- A trivial concrete engine used by witnesses: everything succeeds. -/
def engOk : Engine :=
  { compile := fun _ _ => .ok 0,
    isChecked := fun _ => true,
    mkProgram := fun _ _ => .ok 0,
    evalProg := fun _ _ _ => .ok 0,
    outputType := fun _ => some 0,
    typeToExprType := fun _ => .ok .int,
    parseCheck := fun _ _ _ => (0, [], []),
    createOpts := fun _ _ => .ok [],
    extend := fun env _ => .ok (env + 1) }

/-- A live one-function environment state with no programs, for witnesses. -/
def sLive : CelState :=
  { envs := [("env_1", ⟨0, ["fn_1"], false⟩)],
    programs := [],
    functionRefs := [("fn_1", ⟨0, "env_1"⟩)],
    compilationRegistry := [],
    registered := ["fn_1"],
    envIDCounter := 1,
    programIDCounter := 0,
    compilationIDCounter := 0 }

/-- A destroyed-but-retained environment (one live program holds `fn_1` at
refCount 1) for witnesses. -/
def sDestroyedRetained : CelState :=
  { envs := [("env_1", ⟨0, ["fn_1"], true⟩)],
    programs := [("prg_1", ⟨0, "env_1"⟩)],
    functionRefs := [("fn_1", ⟨1, "env_1"⟩)],
    compilationRegistry := [],
    registered := ["fn_1"],
    envIDCounter := 1,
    programIDCounter := 1,
    compilationIDCounter := 0 }

/-- State with one live environment, two programs and `fn_1` at refCount 2. -/
def sTwoProgs : CelState :=
  { envs := [("env_1", ⟨0, ["fn_1"], false⟩)],
    programs := [("prg_1", ⟨0, "env_1"⟩), ("prg_2", ⟨1, "env_1"⟩)],
    functionRefs := [("fn_1", ⟨2, "env_1"⟩)],
    compilationRegistry := [],
    registered := ["fn_1"],
    envIDCounter := 1,
    programIDCounter := 2,
    compilationIDCounter := 0 }

/-- Well-formed wire-format type descriptors: a bare primitive type name, or
`{kind:"list", elementType: d}` / `{kind:"map", keyType: k, valueType: v}`
built from well-formed descriptors. -/
inductive WFDesc : TypeDescJson → Prop where
  | prim (s : String)
      (h : s = "bool" ∨ s = "int" ∨ s = "uint" ∨ s = "double" ∨ s = "string" ∨
        s = "bytes" ∨ s = "dyn" ∨ s = "null" ∨ s = "timestamp" ∨ s = "duration") :
      WFDesc (.str s)
  | list (d : TypeDescJson) (hd : WFDesc d) :
      WFDesc (.obj [("kind", .str "list"), ("elementType", d)])
  | map (k v : TypeDescJson) (hk : WFDesc k) (hv : WFDesc v) :
      WFDesc (.obj [("kind", .str "map"), ("keyType", k), ("valueType", v)])

/-- An engine whose pipeline reports `list(int)` as the checked output type. -/
def engListInt : Engine :=
  { engOk with typeToExprType := fun _ => .ok (.list .int) }

/-- The engine whose check phase runs the configured JS AST validators: the
raw issues its traversal collected are processed by `processIssues`; the
reported ones become the engine-native errors of the compilation (the node
id's source location attached by `ReportErrorAtID`) and the collector
additions become the compilation context's validator issues. -/
def validatorEngine (failOnWarning includeWarnings : Bool)
    (raw : List (JsIssue × Nat)) (celLoc : Nat → Int × Int) : Engine :=
  { engOk with
    parseCheck := fun _ _ _ =>
      (0,
       (processIssues failOnWarning includeWarnings raw).2.map
         fun nm => ⟨nm.2, (celLoc nm.1).1, (celLoc nm.1).2⟩,
       (processIssues failOnWarning includeWarnings raw).1) }

/-! ## Frame and step lemmas for the destroy operations -/

theorem lookupTable_insert_self {α : Type} (t : List (String × α)) (k : String) (v : α) :
    lookupTable (insertTable t k v) k = some v := by
  simp [lookupTable, insertTable]

theorem lookupTable_erase_self {α : Type} (t : List (String × α)) (k : String) :
    lookupTable (eraseTable t k) k = none := by
  induction t with
  | nil => rfl
  | cons kv rest ih =>
    by_cases h : kv.1 = k
    · simpa [eraseTable, h] using ih
    · simpa [eraseTable, lookupTable, h] using ih

theorem lookupTable_erase_ne {α : Type} (t : List (String × α)) (k k' : String)
    (h : k' ≠ k) : lookupTable (eraseTable t k) k' = lookupTable t k' := by
  induction t with
  | nil => rfl
  | cons kv rest ih =>
    by_cases hk : kv.1 = k
    · simpa [eraseTable, lookupTable, hk, Ne.symm h] using ih
    · by_cases hkk : kv.1 = k'
      · simp [eraseTable, lookupTable, hk, hkk, h]
      · simpa [eraseTable, lookupTable, hk, hkk] using ih

theorem lookupTable_insert_ne {α : Type} (t : List (String × α)) (k k' : String) (v : α)
    (h : k' ≠ k) : lookupTable (insertTable t k v) k' = lookupTable t k' := by
  have hne : k ≠ k' := fun he => h he.symm
  simp only [insertTable, lookupTable, hne, if_false]
  exact lookupTable_erase_ne t k k' h

theorem mem_eraseTable {α : Type} {t : List (String × α)} {k : String}
    {kv : String × α} (h : kv ∈ eraseTable t k) : kv ∈ t ∧ kv.1 ≠ k := by
  induction t with
  | nil => simp [eraseTable] at h
  | cons kv0 rest ih =>
    by_cases hk : kv0.1 = k
    · simp only [eraseTable, hk, if_pos rfl] at h
      exact ⟨List.mem_cons_of_mem _ (ih h).1, (ih h).2⟩
    · simp only [eraseTable, hk, if_false, List.mem_cons] at h
      rcases h with h | h
      · exact ⟨by simp [h], h ▸ hk⟩
      · exact ⟨List.mem_cons_of_mem _ (ih h).1, (ih h).2⟩

theorem mem_filter_ne_self (l : List String) (i : String) :
    i ∉ l.filter (fun x => x != i) := by
  intro h
  have := List.of_mem_filter h
  simp at this

theorem mem_filter_ne_other (l : List String) {i j : String} (h : j ≠ i) :
    j ∈ l.filter (fun x => x != i) ↔ j ∈ l := by
  rw [List.mem_filter]
  simp [h]

theorem unregister_tables (s : CelState) (i : String) :
    (unregisterFunctionIfUnused s i).envs = s.envs ∧
    (unregisterFunctionIfUnused s i).programs = s.programs ∧
    (unregisterFunctionIfUnused s i).compilationRegistry = s.compilationRegistry ∧
    (unregisterFunctionIfUnused s i).programIDCounter = s.programIDCounter := by
  unfold unregisterFunctionIfUnused
  split
  · exact ⟨rfl, rfl, rfl, rfl⟩
  · split
    · exact ⟨rfl, rfl, rfl, rfl⟩
    · exact ⟨rfl, rfl, rfl, rfl⟩

theorem unregister_refs_other (s : CelState) {i j : String} (h : j ≠ i) :
    lookupTable (unregisterFunctionIfUnused s i).functionRefs j =
      lookupTable s.functionRefs j := by
  unfold unregisterFunctionIfUnused
  split
  · rfl
  · split
    · exact lookupTable_erase_ne _ _ _ h
    · rfl

theorem unregister_registered_other (s : CelState) {i j : String} (h : j ≠ i) :
    j ∈ (unregisterFunctionIfUnused s i).registered ↔ j ∈ s.registered := by
  unfold unregisterFunctionIfUnused
  split
  · exact Iff.rfl
  · split
    · exact mem_filter_ne_other _ h
    · exact Iff.rfl

theorem unregister_of_none (s : CelState) (i : String)
    (h : lookupTable s.functionRefs i = none) :
    unregisterFunctionIfUnused s i = s := by
  unfold unregisterFunctionIfUnused
  rw [h]

theorem unregister_of_le (s : CelState) (i : String) (r : FunctionRefCount)
    (h : lookupTable s.functionRefs i = some r) (hle : r.refCount ≤ 0) :
    lookupTable (unregisterFunctionIfUnused s i).functionRefs i = none ∧
    i ∉ (unregisterFunctionIfUnused s i).registered := by
  unfold unregisterFunctionIfUnused
  rw [h]
  simp only [hle, if_true]
  exact ⟨lookupTable_erase_self _ _, mem_filter_ne_self _ _⟩

theorem unregister_of_pos (s : CelState) (i : String) (r : FunctionRefCount)
    (h : lookupTable s.functionRefs i = some r) (hpos : ¬ r.refCount ≤ 0) :
    unregisterFunctionIfUnused s i = s := by
  unfold unregisterFunctionIfUnused
  rw [h]
  simp only [hpos, if_false]

theorem decStep_tables (s : CelState) (i : String) :
    (decStep s i).envs = s.envs ∧
    (decStep s i).programs = s.programs ∧
    (decStep s i).compilationRegistry = s.compilationRegistry ∧
    (decStep s i).programIDCounter = s.programIDCounter := by
  unfold decStep
  split
  · exact ⟨rfl, rfl, rfl, rfl⟩
  · refine ⟨?_, ?_, ?_, ?_⟩ <;>
      simp [(unregister_tables _ _).1, (unregister_tables _ _).2.1,
        (unregister_tables _ _).2.2.1, (unregister_tables _ _).2.2.2]

theorem decStep_refs_other (s : CelState) {i j : String} (h : j ≠ i) :
    lookupTable (decStep s i).functionRefs j = lookupTable s.functionRefs j := by
  unfold decStep
  split
  · rfl
  · rw [unregister_refs_other _ h]
    exact lookupTable_insert_ne _ _ _ _ h

theorem decStep_registered_other (s : CelState) {i j : String} (h : j ≠ i) :
    j ∈ (decStep s i).registered ↔ j ∈ s.registered := by
  unfold decStep
  split
  · exact Iff.rfl
  · exact unregister_registered_other _ h

theorem decStep_of_none (s : CelState) (i : String)
    (h : lookupTable s.functionRefs i = none) : decStep s i = s := by
  unfold decStep
  rw [h]

theorem decStep_of_le (s : CelState) (i : String) (r : FunctionRefCount)
    (h : lookupTable s.functionRefs i = some r) (hle : r.refCount - 1 ≤ 0) :
    lookupTable (decStep s i).functionRefs i = none ∧
    i ∉ (decStep s i).registered := by
  unfold decStep
  rw [h]
  exact unregister_of_le _ _ ⟨r.refCount - 1, r.envID⟩
    (lookupTable_insert_self _ _ _) hle

theorem decStep_of_pos (s : CelState) (i : String) (r : FunctionRefCount)
    (h : lookupTable s.functionRefs i = some r) (hpos : ¬ r.refCount - 1 ≤ 0) :
    lookupTable (decStep s i).functionRefs i = some ⟨r.refCount - 1, r.envID⟩ ∧
    (decStep s i).registered = s.registered := by
  have hred : decStep s i = unregisterFunctionIfUnused
      { s with functionRefs :=
          insertTable s.functionRefs i ⟨r.refCount - 1, r.envID⟩ } i := by
    unfold decStep
    rw [h]
  rw [hred, unregister_of_pos _ _ ⟨r.refCount - 1, r.envID⟩
    (lookupTable_insert_self _ _ _) hpos]
  exact ⟨lookupTable_insert_self _ _ _, rfl⟩

theorem foldl_decStep_tables (L : List String) (s : CelState) :
    (L.foldl decStep s).envs = s.envs ∧
    (L.foldl decStep s).programs = s.programs ∧
    (L.foldl decStep s).compilationRegistry = s.compilationRegistry ∧
    (L.foldl decStep s).programIDCounter = s.programIDCounter := by
  induction L generalizing s with
  | nil => exact ⟨rfl, rfl, rfl, rfl⟩
  | cons i L ih =>
    have h1 := decStep_tables s i
    have h2 := ih (decStep s i)
    simp only [List.foldl_cons]
    exact ⟨h2.1.trans h1.1, h2.2.1.trans h1.2.1,
      h2.2.2.1.trans h1.2.2.1, h2.2.2.2.trans h1.2.2.2⟩

theorem foldl_decStep_frame (L : List String) (s : CelState) (j : String)
    (hj : j ∉ L) :
    lookupTable (L.foldl decStep s).functionRefs j = lookupTable s.functionRefs j ∧
    (j ∈ (L.foldl decStep s).registered ↔ j ∈ s.registered) := by
  induction L generalizing s with
  | nil => exact ⟨rfl, Iff.rfl⟩
  | cons i L ih =>
    have hji : j ≠ i := fun h => hj (h ▸ List.mem_cons_self i L)
    have hjL : j ∉ L := fun h => hj (List.mem_cons_of_mem _ h)
    have h2 := ih (decStep s i) hjL
    simp only [List.foldl_cons]
    exact ⟨h2.1.trans (decStep_refs_other s hji),
      h2.2.trans (decStep_registered_other s hji)⟩

theorem foldl_decStep_key (L : List String) (hnd : L.Nodup) (s : CelState)
    (i : String) (hi : i ∈ L) (r : FunctionRefCount)
    (h : lookupTable s.functionRefs i = some r) :
    (r.refCount - 1 ≤ 0 →
      lookupTable (L.foldl decStep s).functionRefs i = none ∧
      i ∉ (L.foldl decStep s).registered) ∧
    (¬ r.refCount - 1 ≤ 0 →
      lookupTable (L.foldl decStep s).functionRefs i = some ⟨r.refCount - 1, r.envID⟩ ∧
      (i ∈ (L.foldl decStep s).registered ↔ i ∈ s.registered)) := by
  induction L generalizing s with
  | nil => cases hi
  | cons a L ih =>
    simp only [List.foldl_cons]
    rcases List.mem_cons.mp hi with hia | hiL
    · subst hia
      have hniL : i ∉ L := (List.nodup_cons.mp hnd).1
      have hframe := foldl_decStep_frame L (decStep s i) i hniL
      constructor
      · intro hle
        have hstep := decStep_of_le s i r h hle
        exact ⟨hframe.1.trans hstep.1, fun hmem => hstep.2 (hframe.2.mp hmem)⟩
      · intro hpos
        have hstep := decStep_of_pos s i r h hpos
        refine ⟨hframe.1.trans hstep.1, ?_⟩
        rw [hframe.2, hstep.2]
    · have hai : i ≠ a := by
        intro he
        exact (List.nodup_cons.mp hnd).1 (he ▸ hiL)
      have h1 : lookupTable (decStep s a).functionRefs i = some r :=
        (decStep_refs_other s hai).trans h
      have h2 := ih (List.nodup_cons.mp hnd).2 (decStep s a) hiL h1
      constructor
      · exact h2.1
      · intro hpos
        refine ⟨(h2.2 hpos).1, ((h2.2 hpos).2).trans (decStep_registered_other s hai)⟩

theorem foldl_unreg_tables (L : List String) (s : CelState) :
    (L.foldl unregisterFunctionIfUnused s).envs = s.envs ∧
    (L.foldl unregisterFunctionIfUnused s).programs = s.programs ∧
    (L.foldl unregisterFunctionIfUnused s).compilationRegistry = s.compilationRegistry ∧
    (L.foldl unregisterFunctionIfUnused s).programIDCounter = s.programIDCounter := by
  induction L generalizing s with
  | nil => exact ⟨rfl, rfl, rfl, rfl⟩
  | cons i L ih =>
    have h1 := unregister_tables s i
    have h2 := ih (unregisterFunctionIfUnused s i)
    simp only [List.foldl_cons]
    exact ⟨h2.1.trans h1.1, h2.2.1.trans h1.2.1,
      h2.2.2.1.trans h1.2.2.1, h2.2.2.2.trans h1.2.2.2⟩

theorem foldl_unreg_frame (L : List String) (s : CelState) (j : String)
    (hj : j ∉ L) :
    lookupTable (L.foldl unregisterFunctionIfUnused s).functionRefs j =
      lookupTable s.functionRefs j ∧
    (j ∈ (L.foldl unregisterFunctionIfUnused s).registered ↔ j ∈ s.registered) := by
  induction L generalizing s with
  | nil => exact ⟨rfl, Iff.rfl⟩
  | cons i L ih =>
    have hji : j ≠ i := fun h => hj (h ▸ List.mem_cons_self i L)
    have hjL : j ∉ L := fun h => hj (List.mem_cons_of_mem _ h)
    have h2 := ih (unregisterFunctionIfUnused s i) hjL
    simp only [List.foldl_cons]
    exact ⟨h2.1.trans (unregister_refs_other s hji),
      h2.2.trans (unregister_registered_other s hji)⟩

theorem foldl_unreg_of_none (L : List String) (s : CelState)
    (h : ∀ i ∈ L, lookupTable s.functionRefs i = none) :
    L.foldl unregisterFunctionIfUnused s = s := by
  induction L with
  | nil => rfl
  | cons i L ih =>
    simp only [List.foldl_cons]
    rw [unregister_of_none s i (h i (List.mem_cons_self i L))]
    exact ih (fun j hj => h j (List.mem_cons_of_mem _ hj))

theorem foldl_unreg_key (L : List String) (hnd : L.Nodup) (s : CelState)
    (i : String) (hi : i ∈ L)
    (hclean : (lookupTable s.functionRefs i = none ∧ i ∉ s.registered) ∨
      (∃ r, lookupTable s.functionRefs i = some r ∧ r.refCount ≤ 0 ∧ i ∈ s.registered)) :
    lookupTable (L.foldl unregisterFunctionIfUnused s).functionRefs i = none ∧
    i ∉ (L.foldl unregisterFunctionIfUnused s).registered := by
  induction L generalizing s with
  | nil => cases hi
  | cons a L ih =>
    simp only [List.foldl_cons]
    rcases List.mem_cons.mp hi with hia | hiL
    · subst hia
      have hniL : i ∉ L := (List.nodup_cons.mp hnd).1
      have hframe := foldl_unreg_frame L (unregisterFunctionIfUnused s i) i hniL
      rcases hclean with ⟨hnone, hreg⟩ | ⟨r, hsome, hle, _⟩
      · rw [unregister_of_none s i hnone] at hframe ⊢
        exact ⟨hframe.1.trans hnone, fun hm => hreg (hframe.2.mp hm)⟩
      · have hstep := unregister_of_le s i r hsome hle
        exact ⟨hframe.1.trans hstep.1, fun hm => hstep.2 (hframe.2.mp hm)⟩
    · have hai : i ≠ a := by
        intro he
        exact (List.nodup_cons.mp hnd).1 (he ▸ hiL)
      apply ih (List.nodup_cons.mp hnd).2 (unregisterFunctionIfUnused s a) hiL
      rcases hclean with ⟨hnone, hreg⟩ | ⟨r, hsome, hle, hreg⟩
      · exact Or.inl ⟨(unregister_refs_other s hai).trans hnone,
          fun hm => hreg ((unregister_registered_other s hai).mp hm)⟩
      · exact Or.inr ⟨r, (unregister_refs_other s hai).trans hsome, hle,
          (unregister_registered_other s hai).mpr hreg⟩

theorem DestroyEnv_not_found (s : CelState) (envID : String)
    (h : lookupTable s.envs envID = none) :
    DestroyEnv s envID = (s, .err ("environment not found: " ++ envID)) := by
  unfold DestroyEnv
  rw [h]

theorem DestroyEnv_found_clean (s : CelState) (envID : String) (es : EnvState)
    (h : lookupTable s.envs envID = some es)
    (hc : canCleanupCheck s.functionRefs es.implIDs = true) :
    DestroyEnv s envID =
      (let s1 : CelState :=
        { s with envs := insertTable s.envs envID { es with destroyed := true } }
       let s2 := es.implIDs.foldl unregisterFunctionIfUnused s1
       ({ s2 with envs := eraseTable s2.envs envID }, .ok)) := by
  unfold DestroyEnv
  rw [h]
  simp only [hc, if_true]

theorem DestroyEnv_found_dirty (s : CelState) (envID : String) (es : EnvState)
    (h : lookupTable s.envs envID = some es)
    (hc : canCleanupCheck s.functionRefs es.implIDs = false) :
    DestroyEnv s envID =
      ({ s with envs := insertTable s.envs envID { es with destroyed := true } }, .ok) := by
  unfold DestroyEnv
  rw [h]
  simp only [hc]
  rfl

theorem DestroyProgram_not_found (s : CelState) (programID : String)
    (h : lookupTable s.programs programID = none) :
    DestroyProgram s programID = (s, .err ("program not found: " ++ programID)) := by
  unfold DestroyProgram
  rw [h]

theorem DestroyProgram_found_no_env (s : CelState) (programID : String)
    (ps : ProgramState) (h : lookupTable s.programs programID = some ps)
    (henv : lookupTable s.envs ps.envID = none) :
    DestroyProgram s programID =
      ({ s with programs := eraseTable s.programs programID }, .ok) := by
  unfold DestroyProgram
  rw [h]
  simp only [henv]

theorem DestroyProgram_found_env (s : CelState) (programID : String)
    (ps : ProgramState) (es : EnvState)
    (h : lookupTable s.programs programID = some ps)
    (henv : lookupTable s.envs ps.envID = some es) :
    DestroyProgram s programID =
      (let s1 : CelState := { s with programs := eraseTable s.programs programID }
       let s2 := es.implIDs.foldl decStep s1
       if es.destroyed ∧ ¬ (s2.programs.any fun kv => kv.2.envID == ps.envID) then
         ({ s2 with envs := eraseTable s2.envs ps.envID }, .ok)
       else (s2, .ok)) := by
  unfold DestroyProgram
  rw [h]
  simp only [henv]

theorem erase_progFacts (s : CelState) (p : String) (R P : List String) (e : String)
    (nodupR : R.Nodup)
    (progIn : ∀ q ∈ R, ∃ prg, lookupTable s.programs q = some ⟨prg, e⟩)
    (progPairs : ∀ kv ∈ s.programs, kv.2.envID = e → kv.1 ∈ R)
    (progGone : ∀ q ∈ P, q ∉ R → lookupTable s.programs q = none)
    (subRP : ∀ q ∈ R, q ∈ P) :
    (∀ q ∈ R.erase p, ∃ prg, lookupTable (eraseTable s.programs p) q = some ⟨prg, e⟩) ∧
    (∀ kv ∈ eraseTable s.programs p, kv.2.envID = e → kv.1 ∈ R.erase p) ∧
    (∀ q ∈ P, q ∉ R.erase p → lookupTable (eraseTable s.programs p) q = none) := by
  refine ⟨?_, ?_, ?_⟩
  · intro q hq
    have hqp : q ≠ p := ((List.Nodup.mem_erase_iff nodupR).mp hq).1
    have hqR : q ∈ R := ((List.Nodup.mem_erase_iff nodupR).mp hq).2
    obtain ⟨prg, hprg⟩ := progIn q hqR
    exact ⟨prg, (lookupTable_erase_ne _ _ _ hqp).trans hprg⟩
  · intro kv hkv he
    have hm := mem_eraseTable hkv
    exact (List.Nodup.mem_erase_iff nodupR).mpr ⟨hm.2, progPairs kv hm.1 he⟩
  · intro q hqP hq
    by_cases hqp : q = p
    · subst hqp
      exact lookupTable_erase_self _ _
    · have hqR : q ∉ R := fun hmem =>
        hq ((List.Nodup.mem_erase_iff nodupR).mpr ⟨hqp, hmem⟩)
      exact (lookupTable_erase_ne _ _ _ hqp).trans (progGone q hqP hqR)

theorem hasRemaining_of_ne_nil (s : CelState) (p : String) (R : List String)
    (e : String) (nodupR : R.Nodup)
    (progIn : ∀ q ∈ R, ∃ prg, lookupTable s.programs q = some ⟨prg, e⟩)
    (hne : R.erase p ≠ []) :
    (eraseTable s.programs p).any (fun kv => kv.2.envID == e) = true := by
  obtain ⟨q, hq⟩ := List.exists_mem_of_ne_nil _ hne
  have hqp : q ≠ p := ((List.Nodup.mem_erase_iff nodupR).mp hq).1
  have hqR : q ∈ R := ((List.Nodup.mem_erase_iff nodupR).mp hq).2
  obtain ⟨prg, hprg⟩ := progIn q hqR
  have hlook : lookupTable (eraseTable s.programs p) q = some ⟨prg, e⟩ :=
    (lookupTable_erase_ne _ _ _ hqp).trans hprg
  have hmem := mem_of_lookupTable_eq_some hlook
  exact List.any_eq_true.mpr ⟨(q, ⟨prg, e⟩), hmem, by simp⟩

theorem hasRemaining_of_nil (s : CelState) (p : String) (R : List String)
    (e : String) (nodupR : R.Nodup)
    (progPairs : ∀ kv ∈ s.programs, kv.2.envID = e → kv.1 ∈ R)
    (hnil : R.erase p = []) :
    (eraseTable s.programs p).any (fun kv => kv.2.envID == e) = false := by
  rw [Bool.eq_false_iff]
  intro hany
  obtain ⟨kv, hkv, hbeq⟩ := List.any_eq_true.mp hany
  have hm := mem_eraseTable hkv
  have he : kv.2.envID = e := by simpa using hbeq
  have : kv.1 ∈ R.erase p :=
    (List.Nodup.mem_erase_iff nodupR).mpr ⟨hm.2, progPairs kv hm.1 he⟩
  rw [hnil] at this
  cases this

theorem isEmpty_false_of_ne_nil {R : List String} (h : R ≠ []) :
    R.isEmpty = false := by
  cases R with
  | nil => exact absurd rfl h
  | cons a R => rfl

theorem destroyInv_envStep (env0 : EngineEnv) (L P : List String) (e : String)
    (s : CelState) (R : List String)
    (inv : DestroyInv env0 L P e s true R) :
    DestroyInv env0 L P e (DestroyEnv s e).1 false R := by
  have hfind : lookupTable s.envs e = some ⟨env0, L, false⟩ := inv.envCase
  by_cases hR : R = []
  · subst hR
    have hc : canCleanupCheck s.functionRefs L = true := by
      unfold canCleanupCheck
      apply List.all_eq_true.mpr
      intro i hi
      have href : (lookupTable s.functionRefs i = none ∧ i ∉ s.registered) ∨
          (lookupTable s.functionRefs i = some ⟨0, e⟩ ∧ i ∈ s.registered) :=
        inv.refCase i hi
      rcases href with ⟨hnone, _⟩ | ⟨hsome, _⟩
      · rw [hnone]
      · rw [hsome]
        rfl
    have heq := DestroyEnv_found_clean s e ⟨env0, L, false⟩ hfind hc
    have ht : (DestroyEnv s e).1 =
        { (L.foldl unregisterFunctionIfUnused
            { s with envs := insertTable s.envs e ⟨env0, L, true⟩ }) with
          envs := eraseTable (L.foldl unregisterFunctionIfUnused
            { s with envs := insertTable s.envs e ⟨env0, L, true⟩ }).envs e } := by
      rw [heq]
    rw [ht]
    have hprog : (L.foldl unregisterFunctionIfUnused
        { s with envs := insertTable s.envs e ⟨env0, L, true⟩ }).programs =
        s.programs :=
      (foldl_unreg_tables L _).2.1
    refine ⟨inv.nodupL, inv.nodupR, inv.subRP, ?_, ?_, ?_, ?_, ?_⟩
    · intro p hp
      exact absurd hp (List.not_mem_nil p)
    · intro kv hkv he
      rw [hprog] at hkv
      exact inv.progPairs kv hkv he
    · intro p hpP hpR
      show lookupTable _ p = none
      rw [hprog]
      exact inv.progGone p hpP hpR
    · show lookupTable _ e = none
      exact lookupTable_erase_self _ _
    · intro i hi
      show lookupTable _ i = none ∧ i ∉ _
      have hclean : (lookupTable s.functionRefs i = none ∧ i ∉ s.registered) ∨
          (∃ r, lookupTable s.functionRefs i = some r ∧ r.refCount ≤ 0 ∧
            i ∈ s.registered) := by
        have href : (lookupTable s.functionRefs i = none ∧ i ∉ s.registered) ∨
            (lookupTable s.functionRefs i = some ⟨0, e⟩ ∧ i ∈ s.registered) :=
          inv.refCase i hi
        rcases href with h | ⟨hsome, hreg⟩
        · exact Or.inl h
        · exact Or.inr ⟨⟨0, e⟩, hsome, le_refl _, hreg⟩
      exact foldl_unreg_key L inv.nodupL _ i hi hclean
  · have hRe : R.isEmpty = false := isEmpty_false_of_ne_nil hR
    cases L with
    | nil =>
      have hc : canCleanupCheck s.functionRefs [] = true := rfl
      have heq := DestroyEnv_found_clean s e ⟨env0, [], false⟩ hfind hc
      have ht : (DestroyEnv s e).1 =
          { s with envs := eraseTable (insertTable s.envs e ⟨env0, [], true⟩) e } := by
        rw [heq]
        rfl
      rw [ht]
      refine ⟨inv.nodupL, inv.nodupR, inv.subRP, inv.progIn, inv.progPairs,
        inv.progGone, ?_, ?_⟩
      · show if R.isEmpty ∨ ([] : List String).isEmpty then _ = none else _
        rw [if_pos (show R.isEmpty = true ∨ ([] : List String).isEmpty = true from
          Or.inr rfl)]
        exact lookupTable_erase_self _ _
      · intro i hi
        exact absurd hi (List.not_mem_nil i)
    | cons a L' =>
      have href : lookupTable s.functionRefs a = some ⟨(R.length : Int), e⟩ ∧
          a ∈ s.registered := by
        have h0 := inv.refCase a (List.mem_cons_self a L')
        rwa [if_neg (by simp [hRe])] at h0
      have hc : canCleanupCheck s.functionRefs (a :: L') = false := by
        rw [Bool.eq_false_iff]
        intro hall
        have h1 := List.all_eq_true.mp hall a (List.mem_cons_self a L')
        rw [href.1] at h1
        have hlen : 0 < R.length := List.length_pos.mpr hR
        simp only [decide_eq_true_eq] at h1
        omega
      have heq := DestroyEnv_found_dirty s e ⟨env0, a :: L', false⟩ hfind hc
      have ht : (DestroyEnv s e).1 =
          { s with envs := insertTable s.envs e ⟨env0, a :: L', true⟩ } := by
        rw [heq]
      rw [ht]
      refine ⟨inv.nodupL, inv.nodupR, inv.subRP, inv.progIn, inv.progPairs,
        inv.progGone, ?_, ?_⟩
      · show if R.isEmpty ∨ (a :: L').isEmpty then _ = none else _ = some _
        rw [if_neg (by simp [hRe])]
        exact lookupTable_insert_self _ _ _
      · intro i hi
        show if R.isEmpty then _ else _
        rw [if_neg (by simp [hRe])]
        have h0 := inv.refCase i hi
        rwa [if_neg (by simp [hRe])] at h0

theorem DestroyProgram_keep (s : CelState) (programID : String)
    (ps : ProgramState) (es : EnvState)
    (h : lookupTable s.programs programID = some ps)
    (henv : lookupTable s.envs ps.envID = some es)
    (hkeep : es.destroyed = false ∨
      ((es.implIDs.foldl decStep
        { s with programs := eraseTable s.programs programID }).programs.any
          fun kv => kv.2.envID == ps.envID) = true) :
    DestroyProgram s programID =
      (es.implIDs.foldl decStep { s with programs := eraseTable s.programs programID },
       .ok) := by
  rw [DestroyProgram_found_env s programID ps es h henv]
  show (if es.destroyed = true ∧
      ¬ ((es.implIDs.foldl decStep
          { s with programs := eraseTable s.programs programID }).programs.any
            fun kv => kv.2.envID == ps.envID) = true then _ else _) = _
  rw [if_neg]
  rintro ⟨hd, hrem⟩
  rcases hkeep with hfalse | htrue
  · rw [hfalse] at hd
    cases hd
  · exact hrem htrue

theorem DestroyProgram_cleanup (s : CelState) (programID : String)
    (ps : ProgramState) (es : EnvState)
    (h : lookupTable s.programs programID = some ps)
    (henv : lookupTable s.envs ps.envID = some es)
    (hd : es.destroyed = true)
    (hnorem : ((es.implIDs.foldl decStep
        { s with programs := eraseTable s.programs programID }).programs.any
          fun kv => kv.2.envID == ps.envID) = false) :
    DestroyProgram s programID =
      ({ (es.implIDs.foldl decStep
            { s with programs := eraseTable s.programs programID }) with
          envs := eraseTable (es.implIDs.foldl decStep
            { s with programs := eraseTable s.programs programID }).envs ps.envID },
       .ok) := by
  rw [DestroyProgram_found_env s programID ps es h henv]
  show (if es.destroyed = true ∧
      ¬ ((es.implIDs.foldl decStep
          { s with programs := eraseTable s.programs programID }).programs.any
            fun kv => kv.2.envID == ps.envID) = true then _ else _) = _
  rw [if_pos ⟨hd, by rw [hnorem]; exact Bool.false_ne_true⟩]

theorem destroyInv_progStep (env0 : EngineEnv) (L P : List String) (e : String)
    (s : CelState) (b : Bool) (R : List String) (p : String)
    (inv : DestroyInv env0 L P e s b R) (hp : p ∈ R) :
    DestroyInv env0 L P e (DestroyProgram s p).1 b (R.erase p) := by
  have hR : R ≠ [] := List.ne_nil_of_mem hp
  have hRe : R.isEmpty = false := isEmpty_false_of_ne_nil hR
  obtain ⟨prg, hfindp⟩ := inv.progIn p hp
  have hlenpos : 0 < R.length := List.length_pos.mpr hR
  have hlenerase : (R.erase p).length = R.length - 1 := List.length_erase_of_mem hp
  have hpf := erase_progFacts s p R P e inv.nodupR inv.progIn inv.progPairs
    inv.progGone inv.subRP
  have hsub : ∀ q ∈ R.erase p, q ∈ P := fun q hq =>
    inv.subRP q ((List.Nodup.mem_erase_iff inv.nodupR).mp hq).2
  have hnodup : (R.erase p).Nodup := inv.nodupR.erase p
  -- the state after erasing the program entry
  have hfold := foldl_decStep_tables L { s with programs := eraseTable s.programs p }
  -- per-id reference-count facts, available whenever the environment is found
  have hrefs : ∀ i ∈ L,
      lookupTable s.functionRefs i = some ⟨(R.length : Int), e⟩ ∧ i ∈ s.registered := by
    intro i hi
    have h0 := inv.refCase i hi
    cases b with
    | true => rwa [if_neg (by simp [hRe])] at h0
    | false => rwa [if_neg (by simp [hRe])] at h0
  -- per-id facts after the decrement fold
  have hkey : ∀ i ∈ L,
      (R.erase p = [] →
        lookupTable (L.foldl decStep
          { s with programs := eraseTable s.programs p }).functionRefs i = none ∧
        i ∉ (L.foldl decStep { s with programs := eraseTable s.programs p }).registered) ∧
      (R.erase p ≠ [] →
        lookupTable (L.foldl decStep
          { s with programs := eraseTable s.programs p }).functionRefs i =
          some ⟨((R.erase p).length : Int), e⟩ ∧
        i ∈ (L.foldl decStep { s with programs := eraseTable s.programs p }).registered) := by
    intro i hi
    have href := hrefs i hi
    have hkey0 := foldl_decStep_key L inv.nodupL
      { s with programs := eraseTable s.programs p } i hi ⟨(R.length : Int), e⟩ href.1
    constructor
    · intro hnil
      have hlen1 : R.length = 1 := by
        have : (R.erase p).length = 0 := by rw [hnil]; rfl
        omega
      exact hkey0.1 (by rw [hlen1]; norm_num)
    · intro hne
      have hlen2 : 2 ≤ R.length := by
        have : (R.erase p).length ≠ 0 := fun h0 =>
          hne (List.length_eq_zero.mp h0)
        omega
      have hpos : ¬ ((R.length : Int) - 1 ≤ 0) := by
        omega
      have hres := hkey0.2 hpos
      have hcast : ((R.length : Int) - 1) = (((R.erase p).length : Nat) : Int) := by
        rw [hlenerase]
        push_cast [Nat.cast_sub (by omega : 1 ≤ R.length)]
        ring
      rw [hcast] at hres
      exact ⟨hres.1, hres.2.mpr href.2⟩
  cases b with
  | true =>
    have henv : lookupTable s.envs e = some ⟨env0, L, false⟩ := inv.envCase
    have heq := DestroyProgram_keep s p ⟨prg, e⟩ ⟨env0, L, false⟩ hfindp henv
      (Or.inl rfl)
    have ht : (DestroyProgram s p).1 =
        L.foldl decStep { s with programs := eraseTable s.programs p } := by
      rw [heq]
    rw [ht]
    refine ⟨inv.nodupL, hnodup, hsub, ?_, ?_, ?_, ?_, ?_⟩
    · intro q hq
      rw [hfold.2.1]
      exact hpf.1 q hq
    · intro kv hkv he
      rw [hfold.2.1] at hkv
      exact hpf.2.1 kv hkv he
    · intro q hqP hqR
      show lookupTable _ q = none
      rw [hfold.2.1]
      exact hpf.2.2 q hqP hqR
    · show lookupTable _ e = some _
      rw [hfold.1]
      exact henv
    · intro i hi
      by_cases hnil : R.erase p = []
      · show if (R.erase p).isEmpty then _ else _
        rw [if_pos (by rw [hnil]; rfl)]
        exact Or.inl ((hkey i hi).1 hnil)
      · show if (R.erase p).isEmpty then _ else _
        rw [if_neg (by simp [isEmpty_false_of_ne_nil hnil])]
        exact (hkey i hi).2 hnil
  | false =>
    cases hLcase : L with
    | nil =>
      have henv : lookupTable s.envs e = none := by
        have h0 := inv.envCase
        rw [if_pos (show R.isEmpty = true ∨ L.isEmpty = true from
          Or.inr (by rw [hLcase]; rfl))] at h0
        exact h0
      have heq := DestroyProgram_found_no_env s p ⟨prg, e⟩ hfindp henv
      have ht : (DestroyProgram s p).1 =
          { s with programs := eraseTable s.programs p } := by
        rw [heq]
      rw [ht]
      subst hLcase
      refine ⟨inv.nodupL, hnodup, hsub, hpf.1, hpf.2.1, hpf.2.2, ?_, ?_⟩
      · show if (R.erase p).isEmpty ∨ ([] : List String).isEmpty then
            lookupTable _ e = none else _
        rw [if_pos (show (R.erase p).isEmpty = true ∨
          ([] : List String).isEmpty = true from Or.inr rfl)]
        exact henv
      · intro i hi
        exact absurd hi (List.not_mem_nil i)
    | cons a L' =>
      subst hLcase
      have henv : lookupTable s.envs e = some ⟨env0, a :: L', true⟩ := by
        have h0 : if R.isEmpty ∨ (a :: L').isEmpty then lookupTable s.envs e = none
            else lookupTable s.envs e = some ⟨env0, a :: L', true⟩ := inv.envCase
        rwa [if_neg (by simp [hRe])] at h0
      by_cases hnil : R.erase p = []
      · -- last program of a destroyed environment: full cleanup
        have hnorem := hasRemaining_of_nil s p R e inv.nodupR inv.progPairs hnil
        have hnorem2 : (((a :: L').foldl decStep
            { s with programs := eraseTable s.programs p }).programs.any
              fun kv => kv.2.envID == e) = false := by
          rw [hfold.2.1]
          exact hnorem
        have heq := DestroyProgram_cleanup s p ⟨prg, e⟩ ⟨env0, a :: L', true⟩
          hfindp henv rfl hnorem2
        have ht : (DestroyProgram s p).1 =
            { ((a :: L').foldl decStep
                { s with programs := eraseTable s.programs p }) with
              envs := eraseTable ((a :: L').foldl decStep
                { s with programs := eraseTable s.programs p }).envs e } := by
          rw [heq]
        rw [ht]
        refine ⟨inv.nodupL, hnodup, hsub, ?_, ?_, ?_, ?_, ?_⟩
        · intro q hq
          show ∃ prg2, lookupTable _ q = some _
          rw [show ({ ((a :: L').foldl decStep
              { s with programs := eraseTable s.programs p }) with
              envs := eraseTable _ e } : CelState).programs =
              ((a :: L').foldl decStep
                { s with programs := eraseTable s.programs p }).programs from rfl,
            hfold.2.1]
          exact hpf.1 q hq
        · intro kv hkv he
          rw [show ({ ((a :: L').foldl decStep
              { s with programs := eraseTable s.programs p }) with
              envs := eraseTable _ e } : CelState).programs =
              ((a :: L').foldl decStep
                { s with programs := eraseTable s.programs p }).programs from rfl,
            hfold.2.1] at hkv
          exact hpf.2.1 kv hkv he
        · intro q hqP hqR
          show lookupTable _ q = none
          rw [show ({ ((a :: L').foldl decStep
              { s with programs := eraseTable s.programs p }) with
              envs := eraseTable _ e } : CelState).programs =
              ((a :: L').foldl decStep
                { s with programs := eraseTable s.programs p }).programs from rfl,
            hfold.2.1]
          exact hpf.2.2 q hqP hqR
        · show if (R.erase p).isEmpty ∨ (a :: L').isEmpty then
              lookupTable _ e = none else _
          rw [if_pos (show (R.erase p).isEmpty = true ∨ (a :: L').isEmpty = true from
            Or.inl (by rw [hnil]; rfl))]
          exact lookupTable_erase_self _ _
        · intro i hi
          show if (R.erase p).isEmpty then _ else _
          rw [if_pos (by rw [hnil]; rfl)]
          exact (hkey i hi).1 hnil
      · -- other programs remain: the environment entry is retained
        have hrem := hasRemaining_of_ne_nil s p R e inv.nodupR inv.progIn hnil
        have hrem2 : (((a :: L').foldl decStep
            { s with programs := eraseTable s.programs p }).programs.any
              fun kv => kv.2.envID == e) = true := by
          rw [hfold.2.1]
          exact hrem
        have heq := DestroyProgram_keep s p ⟨prg, e⟩ ⟨env0, a :: L', true⟩
          hfindp henv (Or.inr hrem2)
        have ht : (DestroyProgram s p).1 =
            (a :: L').foldl decStep { s with programs := eraseTable s.programs p } := by
          rw [heq]
        rw [ht]
        refine ⟨inv.nodupL, hnodup, hsub, ?_, ?_, ?_, ?_, ?_⟩
        · intro q hq
          rw [hfold.2.1]
          exact hpf.1 q hq
        · intro kv hkv he
          rw [hfold.2.1] at hkv
          exact hpf.2.1 kv hkv he
        · intro q hqP hqR
          show lookupTable _ q = none
          rw [hfold.2.1]
          exact hpf.2.2 q hqP hqR
        · show if (R.erase p).isEmpty ∨ (a :: L').isEmpty then _ = none
              else lookupTable _ e = some _
          rw [if_neg (by simp [isEmpty_false_of_ne_nil hnil])]
          rw [hfold.1]
          exact henv
        · intro i hi
          show if (R.erase p).isEmpty then _ else _
          rw [if_neg (by simp [isEmpty_false_of_ne_nil hnil])]
          exact (hkey i hi).2 hnil

theorem DestroyEnv_clean_of_no_entries (s : CelState) (envID : String)
    (es : EnvState) (hfind : lookupTable s.envs envID = some es)
    (hnone : ∀ i ∈ es.implIDs, lookupTable s.functionRefs i = none) :
    DestroyEnv s envID =
      ({ s with envs := eraseTable (insertTable s.envs envID
          { es with destroyed := true }) envID }, .ok) := by
  have hc : canCleanupCheck s.functionRefs es.implIDs = true := by
    apply List.all_eq_true.mpr
    intro i hi
    rw [hnone i hi]
  set sIns : CelState :=
    { s with envs := insertTable s.envs envID { es with destroyed := true } }
    with hsIns
  have hfold : es.implIDs.foldl unregisterFunctionIfUnused sIns = sIns :=
    foldl_unreg_of_none _ _ hnone
  have heq := DestroyEnv_found_clean s envID es hfind hc
  rw [heq]
  show ({ (es.implIDs.foldl unregisterFunctionIfUnused sIns) with
      envs := eraseTable (es.implIDs.foldl unregisterFunctionIfUnused sIns).envs
        envID }, ApiResult.ok) = _
  rw [hfold]

theorem hasEnvOp_true_iff (l : List DestroyOp) :
    hasEnvOp l = true ↔ DestroyOp.env ∈ l := by
  induction l with
  | nil => simp [hasEnvOp]
  | cons op rest ih =>
    cases op with
    | env => simp [hasEnvOp]
    | prog pid =>
      simp only [hasEnvOp, List.mem_cons, ih]
      constructor
      · exact Or.inr
      · rintro (h | h)
        · cases h
        · exact h

theorem mem_pendingProgs {l : List DestroyOp} {p : String} :
    p ∈ pendingProgs l ↔ DestroyOp.prog p ∈ l := by
  unfold pendingProgs
  rw [List.mem_filterMap]
  constructor
  · rintro ⟨op, hop, hsome⟩
    cases op with
    | env => cases hsome
    | prog q =>
      simp only [Option.some_inj] at hsome
      exact hsome ▸ hop
  · intro h
    exact ⟨DestroyOp.prog p, h, rfl⟩

theorem pendingProgs_nodup {l : List DestroyOp} (h : l.Nodup) :
    (pendingProgs l).Nodup := by
  unfold pendingProgs
  apply h.filterMap
  intro a a' b hb hb'
  cases a with
  | env => cases hb
  | prog q =>
    cases a' with
    | env => cases hb'
    | prog q' =>
      simp only [Option.mem_def, Option.some_inj] at hb hb'
      rw [hb, ← hb']

theorem pendingProgs_of_progs (P : List String) :
    pendingProgs (P.map DestroyOp.prog) = P := by
  induction P with
  | nil => rfl
  | cons p P ih =>
    simp only [pendingProgs, List.map_cons, List.filterMap_cons] at ih ⊢
    rw [ih]

/-- Running any remaining destroy calls preserves and completes the teardown
invariant. -/
theorem destroyInv_execOps (env0 : EngineEnv) (L P : List String) (e : String) :
    ∀ (l : List DestroyOp) (s : CelState), l.Nodup →
      DestroyInv env0 L P e s (hasEnvOp l) (pendingProgs l) →
      DestroyInv env0 L P e (execDestroyOps e s l) false [] := by
  intro l
  induction l with
  | nil => exact fun s _ inv => inv
  | cons op rest ih =>
    intro s hnd inv
    cases op with
    | env =>
      have hne : DestroyOp.env ∉ rest := (List.nodup_cons.mp hnd).1
      have hrest : hasEnvOp rest = false := by
        rw [Bool.eq_false_iff]
        intro htrue
        exact hne ((hasEnvOp_true_iff rest).mp htrue)
      have inv1 : DestroyInv env0 L P e s true (pendingProgs rest) := inv
      have inv2 := destroyInv_envStep env0 L P e s (pendingProgs rest) inv1
      have inv3 : DestroyInv env0 L P e (DestroyEnv s e).1 (hasEnvOp rest)
          (pendingProgs rest) := by
        rw [hrest]
        exact inv2
      exact ih _ (List.nodup_cons.mp hnd).2 inv3
    | prog pid =>
      have hpend : pendingProgs (DestroyOp.prog pid :: rest) =
          pid :: pendingProgs rest := rfl
      have hmem : pid ∈ pendingProgs (DestroyOp.prog pid :: rest) := by
        rw [hpend]
        exact List.mem_cons_self _ _
      have inv1 : DestroyInv env0 L P e s (hasEnvOp rest)
          (pendingProgs (DestroyOp.prog pid :: rest)) := inv
      have inv2 := destroyInv_progStep env0 L P e s (hasEnvOp rest)
        (pendingProgs (DestroyOp.prog pid :: rest)) pid inv1 hmem
      have herase : (pendingProgs (DestroyOp.prog pid :: rest)).erase pid =
          pendingProgs rest := by
        rw [hpend]
        exact List.erase_cons_head pid _
      rw [herase] at inv2
      exact ih _ (List.nodup_cons.mp hnd).2 inv2

theorem cleanSetup_inv {s : CelState} {e : String} {env0 : EngineEnv}
    {L P : List String} (cs : CleanSetup s e env0 L P) (R : List String)
    (hperm : R.Perm P) : DestroyInv env0 L P e s true R := by
  refine ⟨cs.nodupL, hperm.nodup_iff.mpr cs.nodupP,
    fun p hp => hperm.mem_iff.mp hp,
    fun p hp => cs.progEntries p (hperm.mem_iff.mp hp),
    fun kv hkv he => hperm.mem_iff.mpr (cs.progPairs kv hkv he),
    fun p hpP hpR => absurd (hperm.mem_iff.mpr hpP) hpR,
    cs.envEntry, ?_⟩
  intro i hi
  by_cases hR : R = []
  · rw [if_pos (by rw [hR]; rfl)]
    have hP : P = [] := List.perm_nil.mp (hR ▸ hperm).symm
    refine Or.inr ⟨?_, cs.regEntries i hi⟩
    have h0 := cs.refEntries i hi
    rw [hP] at h0
    exact h0
  · rw [if_neg (by simp [isEmpty_false_of_ne_nil hR])]
    rw [hperm.length_eq]
    exact ⟨cs.refEntries i hi, cs.regEntries i hi⟩

/-! ## Claim theorems -/

/-- C2: for every environment with `L.length` declared functions and
`P.length` compiled programs (in the table state such a setup produces),
executing `DestroyEnv` on that environment and `DestroyProgram` on each of its
programs — the `P.length + 1` calls taken in any interleaving order — leaves,
after the last destroy call, zero registered callbacks for that environment's
implementation ids, no entry for the environment in the environment table, no
entries for its programs in the program table, and no entries for its
implementation ids in the function ref-count table. -/
theorem destroy_any_interleaving_full_cleanup
    (s : CelState) (e : String) (env0 : EngineEnv) (L P : List String)
    (ops : List DestroyOp)
    (hsetup : CleanSetup s e env0 L P)
    (hperm : ops.Perm (DestroyOp.env :: P.map DestroyOp.prog)) :
    lookupTable (execDestroyOps e s ops).envs e = none ∧
    (∀ p ∈ P, lookupTable (execDestroyOps e s ops).programs p = none) ∧
    (∀ i ∈ L, lookupTable (execDestroyOps e s ops).functionRefs i = none ∧
      i ∉ (execDestroyOps e s ops).registered) := by
  have hinj : Function.Injective DestroyOp.prog := by
    intro a b h
    cases h
    rfl
  have hfullnodup : (DestroyOp.env :: P.map DestroyOp.prog).Nodup := by
    rw [List.nodup_cons]
    refine ⟨?_, hsetup.nodupP.map hinj⟩
    intro hmem
    obtain ⟨p, _, habs⟩ := List.mem_map.mp hmem
    cases habs
  have hnodup : ops.Nodup := hperm.nodup_iff.mpr hfullnodup
  have hhas : hasEnvOp ops = true :=
    (hasEnvOp_true_iff ops).mpr (hperm.mem_iff.mpr (List.mem_cons_self _ _))
  have hpendperm : (pendingProgs ops).Perm P := by
    have h1 := hperm.filterMap
      (fun op => match op with | DestroyOp.env => none | DestroyOp.prog pid => some pid)
    have h2 : pendingProgs (DestroyOp.env :: P.map DestroyOp.prog) = P := by
      show pendingProgs (P.map DestroyOp.prog) = P
      exact pendingProgs_of_progs P
    rw [← h2]
    exact h1
  have inv0 : DestroyInv env0 L P e s (hasEnvOp ops) (pendingProgs ops) := by
    rw [hhas]
    exact cleanSetup_inv hsetup _ hpendperm
  have invF := destroyInv_execOps env0 L P e ops s hnodup inv0
  exact ⟨invF.envCase, fun p hp => invF.progGone p hp (List.not_mem_nil p),
    fun i hi => invF.refCase i hi⟩

/-- Witness for C2: destroying the program and then the environment of the
concrete one-function one-program setup empties every table. -/
theorem destroy_any_interleaving_full_cleanup_witness :
    lookupTable (execDestroyOps "env_1" sOneOne
      [DestroyOp.prog "prg_1", DestroyOp.env]).envs "env_1" = none ∧
    (∀ p ∈ ["prg_1"], lookupTable (execDestroyOps "env_1" sOneOne
      [DestroyOp.prog "prg_1", DestroyOp.env]).programs p = none) ∧
    (∀ i ∈ ["fn_1"], lookupTable (execDestroyOps "env_1" sOneOne
      [DestroyOp.prog "prg_1", DestroyOp.env]).functionRefs i = none ∧
      i ∉ (execDestroyOps "env_1" sOneOne
        [DestroyOp.prog "prg_1", DestroyOp.env]).registered) :=
  destroy_any_interleaving_full_cleanup sOneOne "env_1" 0 ["fn_1"] ["prg_1"]
    [DestroyOp.prog "prg_1", DestroyOp.env]
    ⟨by decide, by decide, rfl,
     by
      intro p hp
      have hp1 : p = "prg_1" := by simpa using hp
      subst hp1
      exact ⟨0, rfl⟩,
     by
      intro kv hkv he
      have hkv1 : kv = ("prg_1", ⟨0, "env_1"⟩) := by simpa [sOneOne] using hkv
      subst hkv1
      simp,
     by
      intro i hi
      have hi1 : i = "fn_1" := by simpa using hi
      subst hi1
      rfl,
     by decide⟩
    (by decide)

/-- C9: `Typecheck` never mutates lifecycle state: for every engine,
environment handle and expression string, a `Typecheck` call (whether it
returns a type or an error) leaves the environment table, the program table,
the function ref-count table, the callback registry and the program id counter
unchanged — it allocates no program handle and increments no refCount. -/
theorem typecheck_preserves_all_state (eng : Engine) (s : CelState)
    (envID exprStr : String) :
    (Typecheck eng s envID exprStr).1.envs = s.envs ∧
    (Typecheck eng s envID exprStr).1.programs = s.programs ∧
    (Typecheck eng s envID exprStr).1.functionRefs = s.functionRefs ∧
    (Typecheck eng s envID exprStr).1.registered = s.registered ∧
    (Typecheck eng s envID exprStr).1.programIDCounter = s.programIDCounter := by
  have h : (Typecheck eng s envID exprStr).1 = s := by
    unfold Typecheck
    repeat first | rfl | split
  rw [h]
  exact ⟨rfl, rfl, rfl, rfl, rfl⟩

/-- C10: `ExtendEnv` is atomic on failure: for a known, non-destroyed
environment, if option creation or the engine extend fails, an error is
returned and the stored environment state is unchanged; only on success is the
stored engine environment replaced (implIDs, destroyed flag and the handle
itself unchanged), with every other table untouched. -/
theorem extendEnv_atomic_on_failure (eng : Engine) (s : CelState)
    (envID optionsJSON : String) :
    (lookupTable s.envs envID = none →
      ExtendEnv eng s envID optionsJSON =
        (s, .err ("environment not found: " ++ envID))) ∧
    (∀ es, lookupTable s.envs envID = some es → es.destroyed = true →
      ExtendEnv eng s envID optionsJSON =
        (s, .err ("environment has been destroyed: " ++ envID))) ∧
    (∀ es m, lookupTable s.envs envID = some es → es.destroyed = false →
      eng.createOpts optionsJSON envID = .error m →
      ExtendEnv eng s envID optionsJSON =
        (s, .err ("failed to create environment options: " ++ m))) ∧
    (∀ es opts m, lookupTable s.envs envID = some es → es.destroyed = false →
      eng.createOpts optionsJSON envID = .ok opts →
      eng.extend es.env opts = .error m →
      ExtendEnv eng s envID optionsJSON =
        (s, .err ("failed to extend environment: " ++ m))) ∧
    (∀ es opts newEnv, lookupTable s.envs envID = some es → es.destroyed = false →
      eng.createOpts optionsJSON envID = .ok opts →
      eng.extend es.env opts = .ok newEnv →
      (ExtendEnv eng s envID optionsJSON).2 = .ok ∧
      (ExtendEnv eng s envID optionsJSON).1.programs = s.programs ∧
      (ExtendEnv eng s envID optionsJSON).1.functionRefs = s.functionRefs ∧
      (ExtendEnv eng s envID optionsJSON).1.registered = s.registered ∧
      lookupTable (ExtendEnv eng s envID optionsJSON).1.envs envID =
        some ⟨newEnv, es.implIDs, es.destroyed⟩ ∧
      (∀ k, k ≠ envID → lookupTable (ExtendEnv eng s envID optionsJSON).1.envs k =
        lookupTable s.envs k)) := by
  refine ⟨?_, ?_, ?_, ?_, ?_⟩
  · intro hfind
    unfold ExtendEnv
    rw [hfind]
  · intro es hfind hd
    unfold ExtendEnv
    rw [hfind]
    simp [hd]
  · intro es m hfind hd hco
    unfold ExtendEnv
    rw [hfind]
    simp [hd, hco]
  · intro es opts m hfind hd hco hext
    unfold ExtendEnv
    rw [hfind]
    simp [hd, hco, hext]
  · intro es opts newEnv hfind hd hco hext
    have heq : ExtendEnv eng s envID optionsJSON =
        ({ s with envs := insertTable s.envs envID { es with env := newEnv } }, .ok) := by
      unfold ExtendEnv
      rw [hfind]
      simp [hd, hco, hext]
    rw [heq]
    refine ⟨rfl, rfl, rfl, rfl, ?_, ?_⟩
    · exact lookupTable_insert_self _ _ _
    · intro k hk
      exact lookupTable_insert_ne _ _ _ _ hk

/-- Witness for C10: a successful extend on a live environment replaces only
the stored engine environment. -/
theorem extendEnv_atomic_on_failure_witness :
    (ExtendEnv engOk sLive "env_1" "[]").2 = .ok ∧
    lookupTable (ExtendEnv engOk sLive "env_1" "[]").1.envs "env_1" =
      some ⟨1, ["fn_1"], false⟩ :=
  have h := (extendEnv_atomic_on_failure engOk sLive "env_1" "[]").2.2.2.2
    ⟨0, ["fn_1"], false⟩ [] 1 rfl rfl rfl rfl
  ⟨h.1, h.2.2.2.2.1⟩

/-- C6: every `CompileDetailed` call that registers a compilation context
(the environment-found, non-destroyed cases: parse/check error, unchecked AST,
program-build error, and success) unregisters that context before returning,
so no entry for that call's compilation id remains in the registry. -/
theorem compileDetailed_always_unregisters_context (eng : Engine) (s : CelState)
    (envID exprStr : String) (es : EnvState)
    (hfind : lookupTable s.envs envID = some es) (hd : es.destroyed = false) :
    lookupTable (CompileDetailed eng s envID exprStr).1.compilationRegistry
      ("comp_" ++ toString (s.compilationIDCounter + 1)) = none := by
  unfold CompileDetailed
  rw [hfind]
  simp only [hd, Bool.false_eq_true, if_false, lookupTable_insert_self]
  split
  · exact lookupTable_erase_self _ _
  · split
    · exact lookupTable_erase_self _ _
    · split
      · exact lookupTable_erase_self _ _
      · exact lookupTable_erase_self _ _

/-- Witness for C6: a concrete detailed compile on a live environment leaves
no compilation-registry entry behind. -/
theorem compileDetailed_always_unregisters_context_witness :
    lookupTable (CompileDetailed engOk sLive "env_1" "x").1.compilationRegistry
      ("comp_" ++ toString (sLive.compilationIDCounter + 1)) = none :=
  compileDetailed_always_unregisters_context engOk sLive "env_1" "x"
    ⟨0, ["fn_1"], false⟩ rfl rfl

/-- C3: once an environment's destroyed flag is set, `Compile` and `Typecheck`
on its handle return an error with no state change; and destroying an
environment whose tracked function entries all have positive refCounts (as
they do whenever one of its programs is still alive) changes neither the
program table nor the callback registry, so every surviving program evaluates
to exactly the result it produced before the environment was destroyed. -/
theorem destroyed_env_blocks_compile_and_programs_survive (eng : Engine)
    (s : CelState) (envID : String) :
    (∀ es, lookupTable s.envs envID = some es → es.destroyed = true →
      ∀ exprStr,
        Compile eng s envID exprStr =
          (s, .err ("environment has been destroyed: " ++ envID)) ∧
        Typecheck eng s envID exprStr =
          (s, .err ("environment has been destroyed: " ++ envID))) ∧
    ((∀ es, lookupTable s.envs envID = some es →
        ∀ i ∈ es.implIDs, ∀ r, lookupTable s.functionRefs i = some r →
          0 < r.refCount) →
      (DestroyEnv s envID).1.programs = s.programs ∧
      (DestroyEnv s envID).1.registered = s.registered ∧
      ∀ programID vars,
        (Eval eng (DestroyEnv s envID).1 programID vars).2 =
          (Eval eng s programID vars).2) := by
  constructor
  · intro es hfind hd exprStr
    constructor
    · unfold Compile
      rw [hfind]
      simp [hd]
    · unfold Typecheck
      rw [hfind]
      simp [hd]
  · intro hrefs
    have hkeep : (DestroyEnv s envID).1.programs = s.programs ∧
        (DestroyEnv s envID).1.registered = s.registered := by
      cases hfind : lookupTable s.envs envID with
      | none =>
        rw [DestroyEnv_not_found s envID hfind]
        exact ⟨rfl, rfl⟩
      | some es =>
        cases hc : canCleanupCheck s.functionRefs es.implIDs with
        | false =>
          rw [DestroyEnv_found_dirty s envID es hfind hc]
          exact ⟨rfl, rfl⟩
        | true =>
          have hnone : ∀ i ∈ es.implIDs, lookupTable s.functionRefs i = none := by
            intro i hi
            have hall := List.all_eq_true.mp hc i hi
            cases hlook : lookupTable s.functionRefs i with
            | none => rfl
            | some r =>
              rw [hlook] at hall
              simp only [decide_eq_true_eq] at hall
              have := hrefs es hfind i hi r hlook
              omega
          rw [DestroyEnv_clean_of_no_entries s envID es hfind hnone]
          exact ⟨rfl, rfl⟩
    refine ⟨hkeep.1, hkeep.2, ?_⟩
    intro programID vars
    unfold Eval
    rw [hkeep.1, hkeep.2]
    cases lookupTable s.programs programID with
    | none => rfl
    | some ps =>
      dsimp only
      cases eng.evalProg ps.prg vars (fun i => s.registered.contains i) with
      | error e => rfl
      | ok v => rfl

/-- Witness for C3: on the concrete destroyed-but-retained state, `Compile`
errors and a second `DestroyEnv` leaves the surviving program's evaluation
unchanged. -/
theorem destroyed_env_blocks_compile_and_programs_survive_witness :
    Compile engOk sDestroyedRetained "env_1" "x" =
      (sDestroyedRetained, .err "environment has been destroyed: env_1") ∧
    (Eval engOk (DestroyEnv sDestroyedRetained "env_1").1 "prg_1" []).2 =
      (Eval engOk sDestroyedRetained "prg_1" []).2 :=
  have h := destroyed_env_blocks_compile_and_programs_survive engOk
    sDestroyedRetained "env_1"
  have hsurv := h.2 (by
    intro es hes i hi r hr
    have hlookE : lookupTable sDestroyedRetained.envs "env_1" =
        some (⟨0, ["fn_1"], true⟩ : EnvState) := rfl
    rw [hlookE] at hes
    have hes1 : es = ⟨0, ["fn_1"], true⟩ := (Option.some_inj.mp hes).symm
    subst hes1
    have hi1 : i = "fn_1" := by simpa using hi
    subst hi1
    have hlookR : lookupTable sDestroyedRetained.functionRefs "fn_1" =
        some (⟨1, "env_1"⟩ : FunctionRefCount) := rfl
    rw [hlookR] at hr
    have hr1 : r = ⟨1, "env_1"⟩ := (Option.some_inj.mp hr).symm
    subst hr1
    decide)
  ⟨(h.1 ⟨0, ["fn_1"], true⟩ rfl rfl "x").1, hsurv.2.2 "prg_1" []⟩

theorem unregister_entry_subset (s : CelState) (a i : String)
    (r : FunctionRefCount)
    (h : lookupTable (unregisterFunctionIfUnused s a).functionRefs i = some r) :
    lookupTable s.functionRefs i = some r := by
  by_cases hia : i = a
  · subst hia
    cases hlook : lookupTable s.functionRefs i with
    | none =>
      rw [unregister_of_none s i hlook] at h
      rw [hlook] at h
      exact h
    | some r0 =>
      by_cases hle : r0.refCount ≤ 0
      · have hz := (unregister_of_le s i r0 hlook hle).1
        rw [hz] at h
        cases h
      · rw [unregister_of_pos s i r0 hlook hle] at h
        rw [hlook] at h
        exact h
  · rw [← unregister_refs_other s hia]
    exact h

theorem foldl_unreg_entry_subset (L : List String) (s : CelState) (i : String)
    (r : FunctionRefCount)
    (h : lookupTable (L.foldl unregisterFunctionIfUnused s).functionRefs i = some r) :
    lookupTable s.functionRefs i = some r := by
  induction L generalizing s with
  | nil => exact h
  | cons a L ih =>
    simp only [List.foldl_cons] at h
    exact unregister_entry_subset s a i r (ih _ h)

theorem DestroyEnv_never_decrements (s : CelState) (envID i : String)
    (r : FunctionRefCount)
    (h : lookupTable (DestroyEnv s envID).1.functionRefs i = some r) :
    lookupTable s.functionRefs i = some r := by
  cases hfind : lookupTable s.envs envID with
  | none => rw [DestroyEnv_not_found s envID hfind] at h; exact h
  | some es =>
    cases hc : canCleanupCheck s.functionRefs es.implIDs with
    | false => rw [DestroyEnv_found_dirty s envID es hfind hc] at h; exact h
    | true =>
      rw [DestroyEnv_found_clean s envID es hfind hc] at h
      have h2 : lookupTable (es.implIDs.foldl unregisterFunctionIfUnused
          { s with envs :=
              insertTable s.envs envID ⟨es.env, es.implIDs, true⟩ }).functionRefs i =
          some r := h
      exact foldl_unreg_entry_subset es.implIDs
        { s with envs := insertTable s.envs envID ⟨es.env, es.implIDs, true⟩ }
        i r h2

theorem DestroyProgram_programs_erased (s : CelState) (pid : String)
    (ps : ProgramState) (h : lookupTable s.programs pid = some ps) :
    (DestroyProgram s pid).1.programs = eraseTable s.programs pid := by
  cases henv : lookupTable s.envs ps.envID with
  | none => rw [DestroyProgram_found_no_env s pid ps h henv]
  | some es =>
    rw [DestroyProgram_found_env s pid ps es h henv]
    dsimp only
    split
    · exact (foldl_decStep_tables es.implIDs _).2.1
    · exact (foldl_decStep_tables es.implIDs _).2.1

/-- The functionRefs table and callback registry after `DestroyProgram` are
those produced by the decrement fold, whichever way the final environment
cleanup goes. -/
theorem DestroyProgram_refs_registered (s : CelState) (pid : String)
    (ps : ProgramState) (es : EnvState)
    (h : lookupTable s.programs pid = some ps)
    (henv : lookupTable s.envs ps.envID = some es) :
    (DestroyProgram s pid).1.functionRefs =
      (es.implIDs.foldl decStep
        { s with programs := eraseTable s.programs pid }).functionRefs ∧
    (DestroyProgram s pid).1.registered =
      (es.implIDs.foldl decStep
        { s with programs := eraseTable s.programs pid }).registered := by
  rw [DestroyProgram_found_env s pid ps es h henv]
  dsimp only
  split
  · exact ⟨rfl, rfl⟩
  · exact ⟨rfl, rfl⟩

/-- Counterexample for C4 as stated: destroying a handle that has already been
fully removed from the table returns a "not found" error, not success — for
the environment after an immediate-cleanup destroy, and for a program after
its destroy. -/
theorem destroy_removed_handle_errors_cex :
    (DestroyEnv sLive "env_1").2 = .ok ∧
    (DestroyEnv (DestroyEnv sLive "env_1").1 "env_1").2 =
      .err "environment not found: env_1" ∧
    (DestroyProgram sOneOne "prg_1").2 = .ok ∧
    (DestroyProgram (DestroyProgram sOneOne "prg_1").1 "prg_1").2 =
      .err "program not found: prg_1" := by
  decide

/-- C4 amended: `DestroyEnv` succeeds on any handle still present in the
table (destroyed or not) and never decrements a reference count (entries are
kept unchanged or deleted, never modified); a second `DestroyProgram` on the
same handle is a state no-op; but destroying a handle already removed from the
table returns a "not found" error rather than idempotent success — that
success-idempotence is provided by the JS binding layer, which tracks the
destroyed flag per instance and skips the second call. -/
theorem destroy_idempotence_window (s : CelState) :
    (∀ envID es, lookupTable s.envs envID = some es →
      (DestroyEnv s envID).2 = .ok) ∧
    (∀ envID i r, lookupTable (DestroyEnv s envID).1.functionRefs i = some r →
      lookupTable s.functionRefs i = some r) ∧
    (∀ envID, lookupTable s.envs envID = none →
      DestroyEnv s envID = (s, .err ("environment not found: " ++ envID))) ∧
    (∀ programID, lookupTable s.programs programID = none →
      DestroyProgram s programID =
        (s, .err ("program not found: " ++ programID))) ∧
    (∀ programID,
      (DestroyProgram (DestroyProgram s programID).1 programID).1 =
        (DestroyProgram s programID).1) := by
  refine ⟨?_, ?_, ?_, ?_, ?_⟩
  · intro envID es hfind
    cases hc : canCleanupCheck s.functionRefs es.implIDs with
    | false => rw [DestroyEnv_found_dirty s envID es hfind hc]
    | true => rw [DestroyEnv_found_clean s envID es hfind hc]
  · intro envID i r h
    exact DestroyEnv_never_decrements s envID i r h
  · intro envID hfind
    exact DestroyEnv_not_found s envID hfind
  · intro programID hfind
    exact DestroyProgram_not_found s programID hfind
  · intro programID
    cases hfind : lookupTable s.programs programID with
    | none =>
      rw [DestroyProgram_not_found s programID hfind]
      rw [DestroyProgram_not_found s programID hfind]
    | some ps =>
      have hgone : lookupTable (DestroyProgram s programID).1.programs
          programID = none := by
        rw [DestroyProgram_programs_erased s programID ps hfind]
        exact lookupTable_erase_self _ _
      rw [DestroyProgram_not_found _ programID hgone]

/-- Witness for the amended C4: on the concrete one-program setup, the first
environment destroy succeeds, destroying an unknown program errors with the
state unchanged, and a double program destroy is a state no-op. -/
theorem destroy_idempotence_window_witness :
    (DestroyEnv sOneOne "env_1").2 = .ok ∧
    DestroyProgram sOneOne "prg_9" =
      (sOneOne, .err "program not found: prg_9") ∧
    (DestroyProgram (DestroyProgram sOneOne "prg_1").1 "prg_1").1 =
      (DestroyProgram sOneOne "prg_1").1 :=
  have h := destroy_idempotence_window sOneOne
  ⟨h.1 "env_1" ⟨0, ["fn_1"], false⟩ rfl,
   h.2.2.2.1 "prg_9" (by decide),
   h.2.2.2.2 "prg_1"⟩

/-- Counterexample for C1 as stated: destroying the last program of a
still-live (non-destroyed) environment DOES unregister that environment's
callback: afterwards the environment entry is still present and not
destroyed, yet `fn_1` is gone from the callback registry and from the
ref-count table. -/
theorem live_env_last_program_destroy_unregisters_cex :
    (DestroyProgram sOneOne "prg_1").2 = .ok ∧
    lookupTable (DestroyProgram sOneOne "prg_1").1.envs "env_1" =
      some ⟨0, ["fn_1"], false⟩ ∧
    "fn_1" ∉ (DestroyProgram sOneOne "prg_1").1.registered ∧
    lookupTable (DestroyProgram sOneOne "prg_1").1.functionRefs "fn_1" = none := by
  refine ⟨rfl, rfl, ?_, rfl⟩
  decide

/-- C1 amended: a callback registration is unregistered (and its bookkeeping
entry removed) exactly when its refCount reaches 0, with no regard to the
owning environment's destroyed flag: at program-destroy time each entry of the
program's environment is decremented and removed iff the decremented count is
≤ 0 — in particular destroying the last program of a still-live environment
does unregister that environment's callbacks; an entry whose decremented count
stays positive is kept, still registered. -/
theorem unregister_iff_refcount_reaches_zero (s : CelState) (pid : String)
    (ps : ProgramState) (es : EnvState) (i : String) (r : FunctionRefCount)
    (hfind : lookupTable s.programs pid = some ps)
    (henv : lookupTable s.envs ps.envID = some es)
    (hnodup : es.implIDs.Nodup) (hi : i ∈ es.implIDs)
    (hr : lookupTable s.functionRefs i = some r) (hreg : i ∈ s.registered) :
    ((lookupTable (DestroyProgram s pid).1.functionRefs i = none ∧
      i ∉ (DestroyProgram s pid).1.registered) ↔ r.refCount - 1 ≤ 0) ∧
    (¬ r.refCount - 1 ≤ 0 →
      lookupTable (DestroyProgram s pid).1.functionRefs i =
        some ⟨r.refCount - 1, r.envID⟩ ∧
      i ∈ (DestroyProgram s pid).1.registered) := by
  have hrr := DestroyProgram_refs_registered s pid ps es hfind henv
  have hkey := foldl_decStep_key es.implIDs hnodup
    { s with programs := eraseTable s.programs pid } i hi r hr
  constructor
  · constructor
    · rintro ⟨hnone, _⟩
      by_contra hpos
      have := (hkey.2 hpos).1
      rw [hrr.1] at hnone
      rw [hnone] at this
      cases this
    · intro hle
      have h1 := hkey.1 hle
      rw [hrr.1, hrr.2]
      exact h1
  · intro hpos
    have h2 := hkey.2 hpos
    rw [hrr.1, hrr.2]
    exact ⟨h2.1, h2.2.mpr hreg⟩

/-- Witness for the amended C1: with two live programs, destroying one leaves
`fn_1` tracked at refCount 1 and still registered. -/
theorem unregister_iff_refcount_reaches_zero_witness :
    lookupTable (DestroyProgram sTwoProgs "prg_1").1.functionRefs "fn_1" =
      some ⟨1, "env_1"⟩ ∧
    "fn_1" ∈ (DestroyProgram sTwoProgs "prg_1").1.registered :=
  (unregister_iff_refcount_reaches_zero sTwoProgs "prg_1" ⟨0, "env_1"⟩
    ⟨0, ["fn_1"], false⟩ "fn_1" ⟨2, "env_1"⟩ rfl rfl (by decide) (by decide)
    rfl (by decide)).2 (by decide)

mutual

theorem traverseExpr_events_eq (vids : List String)
    (oracle : String → Nat → CallOutcome) :
    ∀ e : CelExpr, (traverseExpr vids oracle e).1 =
      (specPreorder e).flatMap fun nid => vids.map fun fid => (fid, nid)
  | .ident i _ => by
      simp [traverseExpr, specPreorder]
  | .lit i => by
      simp [traverseExpr, specPreorder]
  | .call i target _ args => by
      have ht := traverseTarget_events_eq vids oracle target
      have ha := traverseList_events_eq vids oracle args
      simp [traverseExpr, specPreorder, pcat, ht, ha]
  | .sel i operand _ => by
      have h1 := traverseExpr_events_eq vids oracle operand
      simp [traverseExpr, specPreorder, pcat, h1]
  | .listE i elements => by
      have h1 := traverseList_events_eq vids oracle elements
      simp [traverseExpr, specPreorder, pcat, h1]
  | .mapE i entries => by
      have h1 := traverseEntries_events_eq vids oracle entries
      simp [traverseExpr, specPreorder, pcat, h1]
  | .structE i _ fieldValues => by
      have h1 := traverseList_events_eq vids oracle fieldValues
      simp [traverseExpr, specPreorder, pcat, h1]
  | .compre i iterRange accuInit loopCondition loopStep result => by
      have h1 := traverseExpr_events_eq vids oracle iterRange
      have h2 := traverseExpr_events_eq vids oracle accuInit
      have h3 := traverseExpr_events_eq vids oracle loopCondition
      have h4 := traverseExpr_events_eq vids oracle loopStep
      have h5 := traverseExpr_events_eq vids oracle result
      simp [traverseExpr, specPreorder, pcat, h1, h2, h3, h4, h5]

theorem traverseTarget_events_eq (vids : List String)
    (oracle : String → Nat → CallOutcome) :
    ∀ t : Option CelExpr, (traverseTarget vids oracle t).1 =
      (specPreorderTarget t).flatMap fun nid => vids.map fun fid => (fid, nid)
  | none => by simp [traverseTarget, specPreorderTarget]
  | some e => by
      have h1 := traverseExpr_events_eq vids oracle e
      simp [traverseTarget, specPreorderTarget, h1]

theorem traverseList_events_eq (vids : List String)
    (oracle : String → Nat → CallOutcome) :
    ∀ l : List CelExpr, (traverseList vids oracle l).1 =
      (specPreorderList l).flatMap fun nid => vids.map fun fid => (fid, nid)
  | [] => by simp [traverseList, specPreorderList]
  | e :: rest => by
      have h1 := traverseExpr_events_eq vids oracle e
      have h2 := traverseList_events_eq vids oracle rest
      simp [traverseList, specPreorderList, pcat, h1, h2]

theorem traverseEntries_events_eq (vids : List String)
    (oracle : String → Nat → CallOutcome) :
    ∀ l : List (CelExpr × CelExpr), (traverseEntries vids oracle l).1 =
      (specPreorderEntries l).flatMap fun nid => vids.map fun fid => (fid, nid)
  | [] => by simp [traverseEntries, specPreorderEntries]
  | (k, v) :: rest => by
      have h1 := traverseExpr_events_eq vids oracle k
      have h2 := traverseExpr_events_eq vids oracle v
      have h3 := traverseEntries_events_eq vids oracle rest
      simp [traverseEntries, specPreorderEntries, pcat, h1, h2, h3]

end

mutual

theorem specPreorder_count_eq : ∀ (e : CelExpr) (n : Nat),
    (specPreorder e).count n = idCount e n
  | .ident i _, n => by
      simp [specPreorder, idCount, List.count_singleton']
  | .lit i, n => by
      simp [specPreorder, idCount, List.count_singleton']
  | .call i target _ args, n => by
      have ht := specPreorderTarget_count_eq target n
      have ha := specPreorderList_count_eq args n
      simp [specPreorder, idCount, List.count_cons, List.count_append, ht, ha]
      by_cases h : i = n <;> simp [h] <;> omega
  | .sel i operand _, n => by
      have h1 := specPreorder_count_eq operand n
      simp [specPreorder, idCount, List.count_cons, h1]
      by_cases h : i = n <;> simp [h] <;> omega
  | .listE i elements, n => by
      have h1 := specPreorderList_count_eq elements n
      simp [specPreorder, idCount, List.count_cons, h1]
      by_cases h : i = n <;> simp [h] <;> omega
  | .mapE i entries, n => by
      have h1 := specPreorderEntries_count_eq entries n
      simp [specPreorder, idCount, List.count_cons, h1]
      by_cases h : i = n <;> simp [h] <;> omega
  | .structE i _ fieldValues, n => by
      have h1 := specPreorderList_count_eq fieldValues n
      simp [specPreorder, idCount, List.count_cons, h1]
      by_cases h : i = n <;> simp [h] <;> omega
  | .compre i iterRange accuInit loopCondition loopStep result, n => by
      have h1 := specPreorder_count_eq iterRange n
      have h2 := specPreorder_count_eq accuInit n
      have h3 := specPreorder_count_eq loopCondition n
      have h4 := specPreorder_count_eq loopStep n
      have h5 := specPreorder_count_eq result n
      simp [specPreorder, idCount, List.count_cons, List.count_append,
        h1, h2, h3, h4, h5]
      by_cases h : i = n <;> simp [h] <;> omega

theorem specPreorderTarget_count_eq : ∀ (t : Option CelExpr) (n : Nat),
    (specPreorderTarget t).count n = idCountTarget t n
  | none, n => by simp [specPreorderTarget, idCountTarget]
  | some e, n => by
      have h1 := specPreorder_count_eq e n
      simp [specPreorderTarget, idCountTarget, h1]

theorem specPreorderList_count_eq : ∀ (l : List CelExpr) (n : Nat),
    (specPreorderList l).count n = idCountList l n
  | [], n => by simp [specPreorderList, idCountList]
  | e :: rest, n => by
      have h1 := specPreorder_count_eq e n
      have h2 := specPreorderList_count_eq rest n
      simp [specPreorderList, idCountList, List.count_append, h1, h2]

theorem specPreorderEntries_count_eq : ∀ (l : List (CelExpr × CelExpr)) (n : Nat),
    (specPreorderEntries l).count n = idCountEntries l n
  | [], n => by simp [specPreorderEntries, idCountEntries]
  | (k, v) :: rest, n => by
      have h1 := specPreorder_count_eq k n
      have h2 := specPreorder_count_eq v n
      have h3 := specPreorderEntries_count_eq rest n
      simp [specPreorderEntries, idCountEntries, List.count_append, h1, h2, h3]
      omega

end

/-- C7: during one detailed compile the internal validator's traversal visits
every AST node exactly once, in the pre-order with the per-kind child order
stated by the specification (`specPreorder`, transcribed from the spec's
words), and invokes every registered validator callback on every visited node:
the `CallJSFunction` event sequence is exactly `specPreorder` expanded with
one event per registered validator id per node, in registration order — and
`specPreorder` enumerates each node id of the tree with its exact multiplicity
(so for the unique ids CEL assigns, each node is visited exactly once). -/
theorem validator_traversal_preorder_complete (vids : List String)
    (oracle : String → Nat → CallOutcome) (e : CelExpr) :
    (traverseExpr vids oracle e).1 =
      ((specPreorder e).flatMap fun nid => vids.map fun fid => (fid, nid)) ∧
    ∀ n, (specPreorder e).count n = idCount e n :=
  ⟨traverseExpr_events_eq vids oracle e, fun n => specPreorder_count_eq e n⟩

theorem parseTypeName_roundtrip (s : String)
    (h : s = "bool" ∨ s = "int" ∨ s = "uint" ∨ s = "double" ∨ s = "string" ∨
      s = "bytes" ∨ s = "dyn" ∨ s = "null" ∨ s = "timestamp" ∨ s = "duration") :
    typeToJSON (parseTypeName s) = .str s := by
  rcases h with rfl | rfl | rfl | rfl | rfl | rfl | rfl | rfl | rfl | rfl <;> rfl

theorem wfdesc_roundtrip : ∀ d : TypeDescJson, WFDesc d →
    typeToJSON (parseTypeDef d) = d := by
  intro d h
  induction h with
  | prim s hs =>
    rw [parseTypeDef]
    exact parseTypeName_roundtrip s hs
  | list d hd ih =>
    rw [parseTypeDef]
    show typeToJSON (parseElementType (fieldLookup
      [("kind", TypeDescJson.str "list"), ("elementType", d)] "elementType")) = _
    have he : fieldLookup [("kind", TypeDescJson.str "list"), ("elementType", d)]
        "elementType" = some d := rfl
    rw [he]
    cases hd with
    | prim s hs =>
      rw [parseElementType]
      simp only [typeToJSON]
      rw [ih]
    | list d2 hd2 =>
      rw [parseElementType]
      simp only [typeToJSON]
      rw [ih]
    | map k2 v2 hk2 hv2 =>
      rw [parseElementType]
      simp only [typeToJSON]
      rw [ih]
  | map k v hk hv ihk ihv =>
    rw [parseTypeDef]
    show typeToJSON (ExprType.map
      (parseKeyType (fieldLookup [("kind", TypeDescJson.str "map"),
        ("keyType", k), ("valueType", v)] "keyType"))
      (parseValueType (fieldLookup [("kind", TypeDescJson.str "map"),
        ("keyType", k), ("valueType", v)] "valueType"))) = _
    have hkf : fieldLookup [("kind", TypeDescJson.str "map"),
        ("keyType", k), ("valueType", v)] "keyType" = some k := rfl
    have hvf : fieldLookup [("kind", TypeDescJson.str "map"),
        ("keyType", k), ("valueType", v)] "valueType" = some v := rfl
    rw [hkf, hvf]
    have hkey : typeToJSON (parseKeyType (some k)) = k := by
      cases hk with
      | prim s hs =>
        rw [parseKeyType]
        exact parseTypeName_roundtrip s hs
      | list d2 hd2 =>
        rw [parseKeyType]
        exact ihk
      | map k2 v2 hk2 hv2 =>
        rw [parseKeyType]
        exact ihk
    have hval : typeToJSON (parseValueType (some v)) = v := by
      cases hv with
      | prim s hs =>
        rw [parseValueType]
        exact ihv
      | list d2 hd2 =>
        rw [parseValueType]
        exact ihv
      | map k2 v2 hk2 hv2 =>
        rw [parseValueType]
        exact ihv
    simp only [typeToJSON]
    rw [hkey, hval]

/-- C8: type descriptor conversion round-trips — for every well-formed
descriptor, `typeToJSON (parseTypeDef d) = d`; and the wire answer of a
typecheck is `typeToJSON` of whatever internal type the engine reports, so
typechecking `[1,2,3]` (for which the engine reports `list(int)`) yields
`{kind:"list", elementType:"int"}` and a string-keyed string-valued map
literal yields `{kind:"map", keyType:"string", valueType:"string"}`. -/
theorem typedesc_roundtrip_and_examples :
    (∀ d : TypeDescJson, WFDesc d → typeToJSON (parseTypeDef d) = d) ∧
    (∀ (eng : Engine) (s : CelState) (envID exprStr : String) (es : EnvState)
        (ast : EngineAst) (ty : EngineTy) (t0 : ExprType),
      lookupTable s.envs envID = some es → es.destroyed = false →
      eng.compile es.env exprStr = .ok ast → eng.isChecked ast = true →
      eng.outputType ast = some ty → eng.typeToExprType ty = .ok t0 →
      (Typecheck eng s envID exprStr).2 = .ok (typeToJSON t0)) ∧
    typeToJSON (.list .int) =
      .obj [("kind", .str "list"), ("elementType", .str "int")] ∧
    typeToJSON (.map .string .string) =
      .obj [("kind", .str "map"), ("keyType", .str "string"),
        ("valueType", .str "string")] := by
  refine ⟨wfdesc_roundtrip, ?_, rfl, rfl⟩
  intro eng s envID exprStr es ast ty t0 hfind hd hcomp hchk hout hconv
  unfold Typecheck
  rw [hfind]
  simp [hd, hcomp, hchk, hout, hconv]

/-- Witness for C8: the concrete list-of-int descriptor round-trips, and a
typecheck against an engine reporting `list(int)` answers the list-of-int
descriptor. -/
theorem typedesc_roundtrip_and_examples_witness :
    typeToJSON (parseTypeDef (TypeDescJson.obj
      [("kind", .str "list"), ("elementType", .str "int")])) =
      TypeDescJson.obj [("kind", .str "list"), ("elementType", .str "int")] ∧
    (Typecheck engListInt sLive "env_1" "[1,2,3]").2 =
      .ok (.obj [("kind", .str "list"), ("elementType", .str "int")]) :=
  ⟨typedesc_roundtrip_and_examples.1 _
    (WFDesc.list _ (WFDesc.prim "int" (Or.inr (Or.inl rfl)))),
   typedesc_roundtrip_and_examples.2.1 engListInt sLive "env_1" "[1,2,3]"
    ⟨0, ["fn_1"], false⟩ 0 0 (.list .int) rfl rfl rfl rfl rfl rfl⟩

theorem processIssues_error_reported (f i : Bool) :
    ∀ (raw : List (JsIssue × Nat)) (issue : JsIssue) (nodeID : Nat),
      (issue, nodeID) ∈ raw → strToLower issue.severity = "error" →
      (nodeID, escalatedMessage issue) ∈ (processIssues f i raw).2
  | [], _, _, hmem, _ => absurd hmem (List.not_mem_nil _)
  | (iss0, nid0) :: rest, issue, nodeID, hmem, herr => by
      rw [processIssues]
      rcases List.mem_cons.mp hmem with heq | htail
      · injection heq with h1 h2
        subst h1
        subst h2
        rw [if_neg (fun hskip => by
          rw [herr] at hskip
          exact absurd hskip.2 (by decide))]
        rw [if_pos (Or.inl herr)]
        exact List.mem_cons_self _ _
      · have ihm := processIssues_error_reported f i rest issue nodeID htail herr
        by_cases hskip : ¬i = true ∧ strToLower iss0.severity = "warning"
        · rw [if_pos hskip]
          exact ihm
        · rw [if_neg hskip]
          by_cases hrep : strToLower iss0.severity = "error" ∨ f = true
          · rw [if_pos hrep]
            exact List.mem_cons_of_mem _ ihm
          · rw [if_neg hrep]
            exact ihm

theorem processIssues_all_warnings_fow :
    ∀ raw : List (JsIssue × Nat),
      (∀ x ∈ raw, strToLower x.1.severity = "warning") →
      processIssues true true raw =
        (raw.map fun x => ⟨x.1.severity, x.1.message, x.1.location⟩,
         raw.map fun x => (x.2, escalatedMessage x.1))
  | [], _ => rfl
  | (iss0, nid0) :: rest, hw => by
      have hw0 : strToLower iss0.severity = "warning" :=
        hw (iss0, nid0) (List.mem_cons_self _ _)
      rw [processIssues,
        processIssues_all_warnings_fow rest
          (fun y hy => hw y (List.mem_cons_of_mem _ hy))]
      rw [if_neg (fun hskip => hskip.1 rfl)]
      rw [if_pos (show strToLower iss0.severity ≠ "error" from fun h => by
        rw [hw0] at h
        exact absurd h (by decide))]
      rw [if_pos (Or.inr rfl)]
      simp

theorem processIssues_all_warnings_nofow :
    ∀ raw : List (JsIssue × Nat),
      (∀ x ∈ raw, strToLower x.1.severity = "warning") →
      processIssues false true raw =
        (raw.map fun x => ⟨x.1.severity, x.1.message, x.1.location⟩, [])
  | [], _ => rfl
  | (iss0, nid0) :: rest, hw => by
      have hw0 : strToLower iss0.severity = "warning" :=
        hw (iss0, nid0) (List.mem_cons_self _ _)
      rw [processIssues,
        processIssues_all_warnings_nofow rest
          (fun y hy => hw y (List.mem_cons_of_mem _ hy))]
      rw [if_neg (fun hskip => hskip.1 rfl)]
      rw [if_pos (show strToLower iss0.severity ≠ "error" from fun h => by
        rw [hw0] at h
        exact absurd h (by decide))]
      rw [if_neg (fun hrep => by
        rcases hrep with h | h
        · rw [hw0] at h
          exact absurd h (by decide)
        · cases h)]
      simp

theorem CompileDetailed_err_of_natives (eng : Engine) (s : CelState)
    (envID exprStr : String) (es : EnvState)
    (hfind : lookupTable s.envs envID = some es) (hd : es.destroyed = false)
    (hnat : (eng.parseCheck es.env exprStr
      ("comp_" ++ toString (s.compilationIDCounter + 1))).2.1 ≠ []) :
    (CompileDetailed eng s envID exprStr).2 =
      .err ("compilation error: " ++ String.intercalate "; "
          (((eng.parseCheck es.env exprStr
            ("comp_" ++ toString (s.compilationIDCounter + 1))).2.1).map (·.message)))
        ((((eng.parseCheck es.env exprStr
            ("comp_" ++ toString (s.compilationIDCounter + 1))).2.1).map
            fun er => ⟨"error", er.message, some (er.line, er.column)⟩)
          ++ (((eng.parseCheck es.env exprStr
            ("comp_" ++ toString (s.compilationIDCounter + 1))).2.2).map
            fun v => ⟨v.severity, v.message, v.location⟩)) := by
  unfold CompileDetailed
  rw [hfind]
  simp [hd, lookupTable_insert_self, hnat]

theorem CompileDetailed_ok_of_no_natives (eng : Engine) (s : CelState)
    (envID exprStr : String) (es : EnvState) (prg : EngineProg)
    (hfind : lookupTable s.envs envID = some es) (hd : es.destroyed = false)
    (hnat : (eng.parseCheck es.env exprStr
      ("comp_" ++ toString (s.compilationIDCounter + 1))).2.1 = [])
    (hchk : eng.isChecked (eng.parseCheck es.env exprStr
      ("comp_" ++ toString (s.compilationIDCounter + 1))).1 = true)
    (hmk : eng.mkProgram es.env (eng.parseCheck es.env exprStr
      ("comp_" ++ toString (s.compilationIDCounter + 1))).1 = .ok prg) :
    (CompileDetailed eng s envID exprStr).2 =
      .ok ("prg_" ++ toString (s.programIDCounter + 1))
        (((eng.parseCheck es.env exprStr
          ("comp_" ++ toString (s.compilationIDCounter + 1))).2.2).map
          fun v => ⟨v.severity, v.message, v.location⟩) ∧
    lookupTable (CompileDetailed eng s envID exprStr).1.programs
      ("prg_" ++ toString (s.programIDCounter + 1)) = some ⟨prg, envID⟩ := by
  unfold CompileDetailed
  rw [hfind]
  simp [hd, lookupTable_insert_self, hnat, hchk, hmk]

/-- Counterexample for C5 as stated: under `failOnWarning = true` with
`includeWarnings = false`, a raised warning-severity issue is skipped entirely
by `processIssues` — it neither blocks the detailed compile nor appears in the
issue list at all (let alone twice): the compile succeeds with a program
handle and an empty issue list. -/
theorem warning_dropped_when_includeWarnings_false_cex :
    (CompileDetailed (validatorEngine true false
      [(⟨"warning", "unused variable", none⟩, 1)] (fun _ => (0, 0)))
      sLive "env_1" "x").2 = .ok "prg_1" [] := by
  decide

/-- C5 amended: for a detailed compile with AST validators, an error-severity
issue always blocks (no program handle, the escalated issue in the list);
warning/info issues block only when `failOnWarning` is true; and — provided
`includeWarnings` is true (with `includeWarnings = false` warnings are dropped
entirely, neither escalated nor collected) — when `failOnWarning` is true and
only warnings were raised each issue appears twice, once as the escalated
engine error (severity "error", location folded into the message and CEL's
own location attached) and once in its original form, while with
`failOnWarning = false` the compile succeeds with a valid program handle and
the warnings in the issue list. -/
theorem validator_severity_policy (s : CelState) (envID exprStr : String)
    (es : EnvState) (celLoc : Nat → Int × Int)
    (hfind : lookupTable s.envs envID = some es) (hd : es.destroyed = false) :
    (∀ (raw : List (JsIssue × Nat)) (f i : Bool) (issue : JsIssue) (nodeID : Nat),
      (issue, nodeID) ∈ raw → strToLower issue.severity = "error" →
      ∃ msg issues,
        (CompileDetailed (validatorEngine f i raw celLoc) s envID exprStr).2 =
          .err msg issues ∧
        (⟨"error", escalatedMessage issue, some (celLoc nodeID)⟩ : JsIssueOut)
          ∈ issues) ∧
    (∀ raw : List (JsIssue × Nat), raw ≠ [] →
      (∀ x ∈ raw, strToLower x.1.severity = "warning") →
      ∃ msg,
        (CompileDetailed (validatorEngine true true raw celLoc) s envID exprStr).2 =
          .err msg
            ((raw.map fun x =>
                (⟨"error", escalatedMessage x.1, some (celLoc x.2)⟩ : JsIssueOut))
              ++ (raw.map fun x =>
                (⟨x.1.severity, x.1.message, x.1.location⟩ : JsIssueOut)))) ∧
    (∀ raw : List (JsIssue × Nat),
      (∀ x ∈ raw, strToLower x.1.severity = "warning") →
      (CompileDetailed (validatorEngine false true raw celLoc) s envID exprStr).2 =
        .ok ("prg_" ++ toString (s.programIDCounter + 1))
          (raw.map fun x =>
            (⟨x.1.severity, x.1.message, x.1.location⟩ : JsIssueOut)) ∧
      lookupTable (CompileDetailed (validatorEngine false true raw celLoc)
          s envID exprStr).1.programs
        ("prg_" ++ toString (s.programIDCounter + 1)) = some ⟨0, envID⟩) := by
  refine ⟨?_, ?_, ?_⟩
  · intro raw f i issue nodeID hmem herr
    have hrep := processIssues_error_reported f i raw issue nodeID hmem herr
    have hnat : ((validatorEngine f i raw celLoc).parseCheck es.env exprStr
        ("comp_" ++ toString (s.compilationIDCounter + 1))).2.1 ≠ [] := by
      show ((processIssues f i raw).2.map
        fun nm => (⟨nm.2, (celLoc nm.1).1, (celLoc nm.1).2⟩ : CelError)) ≠ []
      exact List.ne_nil_of_mem (List.mem_map_of_mem _ hrep)
    have herr2 := CompileDetailed_err_of_natives (validatorEngine f i raw celLoc)
      s envID exprStr es hfind hd hnat
    refine ⟨_, _, herr2, ?_⟩
    apply List.mem_append_left
    have h1 : ((⟨escalatedMessage issue, (celLoc nodeID).1,
        (celLoc nodeID).2⟩ : CelError)
        ∈ ((validatorEngine f i raw celLoc).parseCheck es.env exprStr
          ("comp_" ++ toString (s.compilationIDCounter + 1))).2.1) := by
      show _ ∈ (processIssues f i raw).2.map
        fun nm => (⟨nm.2, (celLoc nm.1).1, (celLoc nm.1).2⟩ : CelError)
      have := List.mem_map_of_mem
        (fun nm => (⟨nm.2, (celLoc nm.1).1, (celLoc nm.1).2⟩ : CelError)) hrep
      simpa using this
    have h2 := List.mem_map_of_mem
      (fun er : CelError =>
        (⟨"error", er.message, some (er.line, er.column)⟩ : JsIssueOut)) h1
    simpa using h2
  · intro raw hne hw
    have hp := processIssues_all_warnings_fow raw hw
    have hnat : ((validatorEngine true true raw celLoc).parseCheck es.env exprStr
        ("comp_" ++ toString (s.compilationIDCounter + 1))).2.1 ≠ [] := by
      show ((processIssues true true raw).2.map
        fun nm => (⟨nm.2, (celLoc nm.1).1, (celLoc nm.1).2⟩ : CelError)) ≠ []
      rw [hp]
      simp [hne]
    have herr2 := CompileDetailed_err_of_natives (validatorEngine true true raw celLoc)
      s envID exprStr es hfind hd hnat
    have hnatval : ((validatorEngine true true raw celLoc).parseCheck es.env exprStr
        ("comp_" ++ toString (s.compilationIDCounter + 1))).2.1 =
        (processIssues true true raw).2.map
          fun nm => (⟨nm.2, (celLoc nm.1).1, (celLoc nm.1).2⟩ : CelError) := rfl
    have hvval : ((validatorEngine true true raw celLoc).parseCheck es.env exprStr
        ("comp_" ++ toString (s.compilationIDCounter + 1))).2.2 =
        (processIssues true true raw).1 := rfl
    have hlist : ((((validatorEngine true true raw celLoc).parseCheck es.env exprStr
          ("comp_" ++ toString (s.compilationIDCounter + 1))).2.1).map
          fun er => (⟨"error", er.message, some (er.line, er.column)⟩ : JsIssueOut))
        ++ ((((validatorEngine true true raw celLoc).parseCheck es.env exprStr
          ("comp_" ++ toString (s.compilationIDCounter + 1))).2.2).map
          fun v => (⟨v.severity, v.message, v.location⟩ : JsIssueOut)) =
        ((raw.map fun x =>
            (⟨"error", escalatedMessage x.1, some (celLoc x.2)⟩ : JsIssueOut))
          ++ (raw.map fun x =>
            (⟨x.1.severity, x.1.message, x.1.location⟩ : JsIssueOut))) := by
      rw [hnatval, hvval, hp]
      simp only [List.map_map]
      rfl
    rw [hlist] at herr2
    exact ⟨_, herr2⟩
  · intro raw hw
    have hp := processIssues_all_warnings_nofow raw hw
    have hnat : ((validatorEngine false true raw celLoc).parseCheck es.env exprStr
        ("comp_" ++ toString (s.compilationIDCounter + 1))).2.1 = [] := by
      show ((processIssues false true raw).2.map
        fun nm => (⟨nm.2, (celLoc nm.1).1, (celLoc nm.1).2⟩ : CelError)) = []
      rw [hp]
      rfl
    have hok := CompileDetailed_ok_of_no_natives (validatorEngine false true raw celLoc)
      s envID exprStr es 0 hfind hd hnat rfl rfl
    have hvval : ((validatorEngine false true raw celLoc).parseCheck es.env exprStr
        ("comp_" ++ toString (s.compilationIDCounter + 1))).2.2 =
        (processIssues false true raw).1 := rfl
    constructor
    · rw [hok.1, hvval, hp]
      simp [List.map_map]
    · exact hok.2

/-- Witness for the amended C5: one warning under `failOnWarning = true,
includeWarnings = true` blocks the compile with the issue listed twice — once
escalated at CEL's location of node 1, once in its original form. -/
theorem validator_severity_policy_witness :
    ∃ msg, (CompileDetailed (validatorEngine true true
        [(⟨"warning", "w", none⟩, 1)] (fun _ => (3, 4))) sLive "env_1" "x").2 =
      .err msg [⟨"error", "w", some (3, 4)⟩, ⟨"warning", "w", none⟩] :=
  (validator_severity_policy sLive "env_1" "x" ⟨0, ["fn_1"], false⟩
    (fun _ => (3, 4)) rfl rfl).2.1 [(⟨"warning", "w", none⟩, 1)]
    (by decide) (by
      intro x hx
      have hx1 : x = (⟨"warning", "w", none⟩, 1) := by simpa using hx
      subst hx1
      decide)

end WasmCel
